import Mathlib

/-!
Verification of the semantic core of the `live-programming-prototype`
repository against its natural-language specification.

Each Rust source construct used by a claim is embedded shallowly as a Lean
definition.  Machine integers become `Nat`, `f32`/`f64` values become `ℚ`
(rationals; NaN and infinities are not representable and are noted where
relevant), `Result`/panics become `Except`/`Option`, and `&mut` state is
threaded explicitly.  `HashMap`s become association lists kept in insertion
order; Rust `HashMap` iteration order is unspecified, so wherever the source
iterates a map the embedding fixes insertion order (noted at each site).
-/

set_option linter.unusedVariables false

namespace LPP

/-! ## Embedding of `src/compiler/src/types.rs` -/

/-- Primitive type (source: `enum PType`, types.rs lines 36-42).
The source enumerates exactly these ten variants. -/
inductive PType where
  | Void | F64 | F32 | I64 | I32 | U64 | U32 | U16 | U8 | Bool
deriving DecidableEq, Repr

/-- source: `enum Type` (types.rs lines 52-61), called `LType` here because
`Type` is a Lean keyword.  The source's `Fun(&FunctionSignature)` holds
`args : Vec<Type>` and `return_type : Type`; the signature is inlined. -/
inductive LType where
  | Prim (p : PType)
  | Generic (gid : Nat)
  | Fun (args : List LType) (return_type : LType)
  | Def (name : String)
  | Array (t : LType)
  | Ptr (t : LType)
deriving Repr

mutual

/-- source: `impl PartialEq for Type` (types.rs lines 116-129): structural
comparison, with `Def` compared by name and `Generic` by id. -/
def LType.beq : LType → LType → Bool
  | .Fun as₁ r₁, .Fun as₂ r₂ => LType.beqList as₁ as₂ && LType.beq r₁ r₂
  | .Def a, .Def b => a = b
  | .Array a, .Array b => LType.beq a b
  | .Ptr a, .Ptr b => LType.beq a b
  | .Prim a, .Prim b => a = b
  | .Generic a, .Generic b => a = b
  | _, _ => false

/-- Elementwise equality of `Vec<Type>` (via `PartialEq for FunctionSignature`). -/
def LType.beqList : List LType → List LType → Bool
  | [], [] => true
  | a :: as₁, b :: bs₁ => LType.beq a b && LType.beqList as₁ bs₁
  | _, _ => false

end

mutual

theorem LType.beq_iff : ∀ a b : LType, LType.beq a b = true ↔ a = b
  | .Prim a, b => by
    cases b <;> simp [LType.beq]
  | .Generic a, b => by
    cases b <;> simp [LType.beq]
  | .Fun as₁ r₁, b => by
    cases b <;> simp [LType.beq, LType.beqList_iff as₁, LType.beq_iff r₁]
  | .Def a, b => by
    cases b <;> simp [LType.beq]
  | .Array a, b => by
    cases b <;> simp [LType.beq, LType.beq_iff a]
  | .Ptr a, b => by
    cases b <;> simp [LType.beq, LType.beq_iff a]

theorem LType.beqList_iff : ∀ as₁ bs₁ : List LType,
    LType.beqList as₁ bs₁ = true ↔ as₁ = bs₁
  | [], bs₁ => by cases bs₁ <;> simp [LType.beqList]
  | a :: as₁, bs₁ => by
    cases bs₁ <;> simp [LType.beqList, LType.beq_iff a, LType.beqList_iff as₁]

end

instance : DecidableEq LType := fun a b =>
  decidable_of_iff (LType.beq a b = true) (LType.beq_iff a b)

namespace LType

/-- source: `Type::from_string` (types.rs lines 151-168).  Note the absence
of `"i8"` and `"i16"`, and that `Void` is written `"()"`. -/
def from_string (s : String) : Option LType :=
  match s with
  | "f64" => some (.Prim .F64)
  | "f32" => some (.Prim .F32)
  | "bool" => some (.Prim .Bool)
  | "i64" => some (.Prim .I64)
  | "u64" => some (.Prim .U64)
  | "i32" => some (.Prim .I32)
  | "u32" => some (.Prim .U32)
  | "u16" => some (.Prim .U16)
  | "u8" => some (.Prim .U8)
  | "()" => some (.Prim .Void)
  | _ => none

/-- source: `Type::float` (types.rs lines 170-172). -/
def float : LType → Bool
  | .Prim .F32 | .Prim .F64 => true
  | _ => false

/-- source: `Type::unsigned_int` (types.rs lines 174-176). -/
def unsigned_int : LType → Bool
  | .Prim .U64 | .Prim .U32 | .Prim .U16 | .Prim .U8 => true
  | _ => false

/-- source: `Type::signed_int` (types.rs lines 178-180). -/
def signed_int : LType → Bool
  | .Prim .I64 | .Prim .I32 => true
  | _ => false

/-- source: `Type::int` (types.rs lines 182-184). -/
def int (t : LType) : Bool := t.signed_int || t.unsigned_int

/-- source: `Type::number` (types.rs lines 186-188). -/
def number (t : LType) : Bool := t.int || t.float

/-- source: `Type::pointer` (types.rs lines 190-192). -/
def pointer : LType → Bool
  | .Ptr _ | .Fun _ _ => true
  | _ => false

end LType

/-- The ten variants of `PType`, in source declaration order. -/
def allPTypes : List PType :=
  [.Void, .F64, .F32, .I64, .I32, .U64, .U32, .U16, .U8, .Bool]

/-- The ten source-level primitive type names accepted by `Type::from_string`. -/
def primTypeNames : List String :=
  ["f64", "f32", "bool", "i64", "u64", "i32", "u32", "u16", "u8", "()"]

theorem allPTypes_complete : ∀ p : PType, p ∈ allPTypes := by
  intro p; cases p <;> simp [allPTypes]

/-- C8 counterexample: the claim includes `I8` and `I16` among the primitive
types, but the source recognizes no `"i8"` or `"i16"` type name (and `PType`
has no corresponding variants, see `allPTypes_complete`). -/
theorem ptype_no_i8_i16 :
    LType.from_string "i8" = none ∧ LType.from_string "i16" = none := by
  constructor <;> rfl

/-- C8 (amended): the primitive types are exactly the ten
`{Void, Bool, I32, I64, U8, U16, U32, U64, F32, F64}`: the ten variants are
pairwise distinct and exhaustive, each has a recognized source-level name
(`Void` is written `"()"`), and `from_string` accepts no other name. -/
theorem ptype_exactly_ten :
    (∀ p : PType, p ∈ allPTypes) ∧ allPTypes.Nodup ∧ allPTypes.length = 10 ∧
    (LType.from_string "f64" = some (.Prim .F64) ∧
     LType.from_string "f32" = some (.Prim .F32) ∧
     LType.from_string "bool" = some (.Prim .Bool) ∧
     LType.from_string "i64" = some (.Prim .I64) ∧
     LType.from_string "u64" = some (.Prim .U64) ∧
     LType.from_string "i32" = some (.Prim .I32) ∧
     LType.from_string "u32" = some (.Prim .U32) ∧
     LType.from_string "u16" = some (.Prim .U16) ∧
     LType.from_string "u8" = some (.Prim .U8) ∧
     LType.from_string "()" = some (.Prim .Void)) ∧
    (∀ s t, LType.from_string s = some t → s ∈ primTypeNames) := by
  refine ⟨allPTypes_complete, by decide, by decide, ⟨rfl, rfl, rfl, rfl, rfl, rfl, rfl, rfl, rfl, rfl⟩, ?_⟩
  intro s t h
  unfold LType.from_string at h
  split at h <;> simp_all [primTypeNames]

/-- Witness for `ptype_exactly_ten`: discharging the hypothesis of its final
conjunct at the concrete name `"f64"`. -/
theorem ptype_exactly_ten_witness : "f64" ∈ primTypeNames :=
  ptype_exactly_ten.2.2.2.2 "f64" (.Prim .F64) rfl

/-- source: `struct FunctionSignature` (types.rs lines 101-105). -/
structure FunctionSignature where
  return_type : LType
  args : List LType
deriving DecidableEq, Repr

/-- source: `struct Symbol` from structure.rs (not under src/; a typed binding
site per the spec §3: identifier, unique id, location).  Modelled from the
spec: only `name`, `id` and `loc` are consulted by the embedded code. -/
structure Symbol where
  id : Nat
  name : String
  loc : Nat
deriving DecidableEq, Repr

/-- source: `enum TypeKind` from structure.rs (not under src/).  Modelled from
the spec §3: a type definition has kind `struct` or `union`. -/
inductive TypeKind where
  | Struct | Union
deriving DecidableEq, Repr

/-- source: `enum GlobalType` from structure.rs (not under src/).  Modelled
from the spec §3: lifecycle kind of a global, one of CBind/Normal/Repl. -/
inductive GlobalType where
  | CBind | Normal | Repl
deriving DecidableEq, Repr

/-- source: `enum FunctionImplementation` (types.rs lines 73-78). -/
inductive FunctionImplementation where
  | Normal (body : Nat) (name_for_codegen : String) (args : List Symbol)
  | CFunction
  | Intrinsic
deriving DecidableEq, Repr

/-- source: `struct FunctionDefinition` (types.rs lines 80-89). -/
structure FunctionDefinition where
  id : Nat
  module_id : Nat
  name_in_code : String
  signature : FunctionSignature
  generics : List Nat
  implementation : FunctionImplementation
  loc : Nat
deriving DecidableEq, Repr

/-- source: `struct TypeDefinition` (types.rs lines 63-71). -/
structure TypeDefinition where
  name : String
  fields : List (Symbol × LType)
  kind : TypeKind
  drop_function : Option Nat
  clone_function : Option Nat
  definition_location : Nat
deriving DecidableEq, Repr

/-- source: `struct GlobalDefinition` (types.rs lines 107-114). -/
structure GlobalDefinition where
  module_id : Nat
  name : String
  type_tag : LType
  global_type : GlobalType
  loc : Nat
deriving DecidableEq, Repr

/-- source: `struct TypeInfo` (types.rs lines 27-32).  The Rust `HashMap`s
become association lists in insertion order; `functions.values()` iteration
(whose order a Rust `HashMap` leaves unspecified) is embedded as iteration in
insertion order. -/
structure TypeInfo where
  id : Nat
  type_defs : List (String × TypeDefinition)
  functions : List FunctionDefinition
  globals : List (String × GlobalDefinition)
deriving Repr

/-- source: `enum FindFunctionResult` (types.rs lines 195-198).  The generic
binding `HashMap<GenericId, Type>` becomes an association list in insertion
order (keys are never re-inserted, so lengths agree with the map's `len()`). -/
inductive FindFunctionResult where
  | ConcreteFunction (fid : Nat)
  | GenericInstance (fid : Nat) (generics : List (Nat × LType))
deriving DecidableEq, Repr

/-- source: `fn generic_match` (types.rs lines 310-326).  The Rust function
mutates the `generics` map and returns `bool`; the embedding threads the map
and returns `none` for `false`.  Match-arm order mirrors the source:
`(Ptr, Ptr)` and `(Array, Array)` descend first, then an unbound generic on
the right binds (first occurrence) or must equal its earlier binding, and any
other pair falls back to type equality. -/
def generic_match (generics : List (Nat × LType)) (t gt : LType) :
    Option (List (Nat × LType)) :=
  match t, gt with
  | .Ptr t, .Ptr gt => generic_match generics t gt
  | .Array t, .Array gt => generic_match generics t gt
  | t, .Generic gid =>
    match (generics.find? (fun p => p.1 = gid)) with
    | some p => if t = p.2 then some generics else none
    | none => some (generics ++ [(gid, t)])
  | t, gt => if t = gt then some generics else none

/-- The per-argument loop of `generic_match_sig` (the `for (t, gt) in
args.iter().zip(sig.args.iter())` loop with its early `return false`),
threading the bindings map. -/
def generic_match_list (m : List (Nat × LType)) :
    List (LType × LType) → Option (List (Nat × LType))
  | [] => some m
  | (t, gt) :: rest =>
    match generic_match m t gt with
    | some m' => generic_match_list m' rest
    | none => none

/-- source: `fn generic_match_sig` (types.rs lines 295-308): arity must match,
every argument must `generic_match` its declared parameter, and the final
bindings must cover exactly the definition's declared generics
(`generics.len() == def.generics.len()`). -/
def generic_match_sig (generics : List (Nat × LType)) (args : List LType)
    (def_ : FunctionDefinition) (sig : FunctionSignature) :
    Option (List (Nat × LType)) :=
  if args.length = sig.args.length then
    match generic_match_list generics (args.zip sig.args) with
    | some m => if m.length = def_.generics.length then some m else none
    | none => none
  else none

namespace TypeInfo

/-- source: `TypeInfo::find_global` (types.rs lines 210-212). -/
def find_global (ti : TypeInfo) (name : String) : Option GlobalDefinition :=
  (ti.globals.find? (fun p => p.1 = name)).map Prod.snd

/-- source: `TypeInfo::find_type_def` (types.rs lines 214-216). -/
def find_type_def (ti : TypeInfo) (name : String) : Option TypeDefinition :=
  (ti.type_defs.find? (fun p => p.1 = name)).map Prod.snd

/-- source: `TypeInfo::get_function` (types.rs lines 218-220).  The Rust
`unwrap` panics on a missing id; the embedding returns `Option`. -/
def get_function (ti : TypeInfo) (fid : Nat) : Option FunctionDefinition :=
  ti.functions.find? (fun d => d.id = fid)

end TypeInfo

/-- The polymorphic-candidate search of `find_function` (the second
`functions.values().find(...)` at types.rs lines 232-240; the shared bindings
map is cleared whenever a candidate fails, so each candidate starts from an
empty map). -/
def find_function_poly (name : String) (args : List LType) :
    List FunctionDefinition → Option FindFunctionResult
  | [] => none
  | d :: rest =>
    if !d.generics.isEmpty && d.name_in_code = name then
      match generic_match_sig [] args d d.signature with
      | some m => some (.GenericInstance d.id m)
      | none => find_function_poly name args rest
    else find_function_poly name args rest

/-- source: `TypeInfo::find_function` (types.rs lines 222-247): first search
for a monomorphic definition with the name and exactly the argument types;
otherwise search polymorphic definitions via `generic_match_sig`. -/
def TypeInfo.find_function (ti : TypeInfo) (name : String) (args : List LType) :
    Option FindFunctionResult :=
  match ti.functions.find? (fun d =>
      d.generics.isEmpty && d.name_in_code = name && args = d.signature.args) with
  | some d => some (.ConcreteFunction d.id)
  | none => find_function_poly name args ti.functions

/-- source: `TypeInfo::generic_replace` (types.rs lines 275-292): substitute
bound generics, descending through `Ptr` and `Array`.  The Rust
`generics.get(&gid).unwrap()` panics on an unbound id; the embedding leaves
the generic in place in that (unreachable, see `generic_match_sig`) case. -/
def generic_replace (generics : List (Nat × LType)) : LType → LType
  | .Ptr t => .Ptr (generic_replace generics t)
  | .Array t => .Array (generic_replace generics t)
  | .Generic gid =>
    match (generics.find? (fun p => p.1 = gid)).map Prod.snd with
    | some t => t
    | none => .Generic gid
  | t => t

/-- source: `TypeInfo::concrete_function` (types.rs lines 249-273): a concrete
match is returned as-is; a generic match materializes a fresh monomorphic
definition with the substituted signature and a fresh id from the UID
generator, inserting it into the registry.  Returns the chosen function id,
the updated registry and the updated generator.  The `get_function` unwrap is
unreachable when `r` came from `find_function` on the same registry; the
embedding returns the input unchanged in that case. -/
def concrete_function (ti : TypeInfo) (gen : Nat) (r : FindFunctionResult) :
    Nat × TypeInfo × Nat :=
  match r with
  | .ConcreteFunction fid => (fid, ti, gen)
  | .GenericInstance fid generics =>
    match ti.get_function fid with
    | none => (fid, ti, gen)
    | some def_ =>
      let sig : FunctionSignature :=
        { args := def_.signature.args.map (generic_replace generics),
          return_type := generic_replace generics def_.signature.return_type }
      let newDef : FunctionDefinition :=
        { id := gen, module_id := ti.id, name_in_code := def_.name_in_code,
          signature := sig, generics := [],
          implementation := def_.implementation, loc := def_.loc }
      (gen, { ti with functions := ti.functions ++ [newDef] }, gen + 1)

/-! ### The declarative matching relation of the spec (for C7)

The spec describes polymorphic matching as: descend through matching
ptr/array constructors; a parameter position that is a generic id must carry
(the binding of) that id; any other position must be equal.  `MatchesUnder m`
says one argument/parameter pair matches under a fixed binding map `m`. -/

/-- Declarative (spec-side) matching of a concrete argument type against a
declared parameter type under the binding map `m`. -/
inductive MatchesUnder (m : List (Nat × LType)) : LType → LType → Prop where
  | ptr {t gt : LType} : MatchesUnder m t gt → MatchesUnder m (.Ptr t) (.Ptr gt)
  | arr {t gt : LType} : MatchesUnder m t gt → MatchesUnder m (.Array t) (.Array gt)
  | gen {t : LType} {gid : Nat} :
      (m.find? (fun p => p.1 = gid)).map Prod.snd = some t →
      MatchesUnder m t (.Generic gid)
  | same (t : LType) : MatchesUnder m t t

theorem find?_append_of_some {α : Type} {p : α → Bool} {l₁ l₂ : List α} {a : α}
    (h : l₁.find? p = some a) : (l₁ ++ l₂).find? p = some a := by
  induction l₁ with
  | nil => simp at h
  | cons x xs ih =>
    by_cases hx : p x
    · simp [List.find?, hx] at h ⊢; exact h
    · simp only [List.cons_append, List.find?_cons_of_neg _ hx] at h ⊢
      exact ih h

theorem find?_append_none {α : Type} {p : α → Bool} {l₁ : List α}
    (h : l₁.find? p = none) (l₂ : List α) : (l₁ ++ l₂).find? p = l₂.find? p := by
  induction l₁ with
  | nil => simp
  | cons x xs ih =>
    by_cases hx : p x
    · simp [List.find?, hx] at h
    · simp only [List.find?_cons_of_neg _ hx] at h
      simp only [List.cons_append, List.find?_cons_of_neg _ hx]
      exact ih h

/-- A binding established in `m` survives appending further bindings. -/
theorem MatchesUnder.append {m ext : List (Nat × LType)} {t gt : LType}
    (h : MatchesUnder m t gt) : MatchesUnder (m ++ ext) t gt := by
  induction h with
  | ptr _ ih => exact .ptr ih
  | arr _ ih => exact .arr ih
  | @gen t gid hfind =>
    refine .gen ?_
    cases hm : m.find? (fun p => p.1 = gid) with
    | none => simp [hm] at hfind
    | some p => rw [find?_append_of_some hm]; simpa [hm] using hfind
  | same t => exact .same t

/-- `generic_match` only ever appends new bindings. -/
theorem generic_match_append {m : List (Nat × LType)} {t gt : LType}
    {m' : List (Nat × LType)} (h : generic_match m t gt = some m') :
    ∃ ext, m' = m ++ ext := by
  induction t, gt using generic_match.induct m with
  | case1 t gt ih => exact ih (by simpa [generic_match] using h)
  | case2 t gt ih => exact ih (by simpa [generic_match] using h)
  | case3 gid p hfind =>
    simp only [generic_match, hfind, if_pos rfl, if_true, Option.some.injEq] at h
    exact ⟨[], by simp [h]⟩
  | case4 t gid p hfind hne =>
    simp only [generic_match, hfind, if_neg hne] at h
    cases h
  | case5 t gid hfind =>
    simp only [generic_match, hfind, Option.some.injEq] at h
    exact ⟨_, h.symm⟩
  | case6 gt h1 h2 h3 =>
    cases gt with
    | Ptr x => exact (h2 x x rfl rfl).elim
    | Array x => exact (h3 x x rfl rfl).elim
    | Generic g => exact (h1 g rfl).elim
    | Prim p =>
      simp only [generic_match, if_pos rfl, if_true, Option.some.injEq] at h
      exact ⟨[], by simp [h]⟩
    | Fun a r =>
      simp only [generic_match, if_pos rfl, if_true, Option.some.injEq] at h
      exact ⟨[], by simp [h]⟩
    | Def n =>
      simp only [generic_match, if_pos rfl, if_true, Option.some.injEq] at h
      exact ⟨[], by simp [h]⟩
  | case7 t gt h1 h2 h3 hne =>
    rw [generic_match.eq_def] at h
    split at h
    · exact (h1 _ _ rfl rfl).elim
    · exact (h2 _ _ rfl rfl).elim
    · exact (h3 _ rfl).elim
    · rw [if_neg hne] at h; cases h

/-- `generic_match` is sound for the declarative relation: a successful match
yields bindings under which the argument matches the parameter. -/
theorem generic_match_sound {m : List (Nat × LType)} {t gt : LType}
    {m' : List (Nat × LType)} (h : generic_match m t gt = some m') :
    MatchesUnder m' t gt := by
  induction t, gt using generic_match.induct m with
  | case1 t gt ih => exact .ptr (ih (by simpa [generic_match] using h))
  | case2 t gt ih => exact .arr (ih (by simpa [generic_match] using h))
  | case3 gid p hfind =>
    simp only [generic_match, hfind, if_pos rfl, if_true, Option.some.injEq] at h
    subst h
    exact .gen (by simp [hfind])
  | case4 t gid p hfind hne =>
    simp only [generic_match, hfind, if_neg hne] at h
    cases h
  | case5 t gid hfind =>
    simp only [generic_match, hfind, Option.some.injEq] at h
    subst h
    refine .gen ?_
    rw [find?_append_none hfind]
    simp
  | case6 gt h1 h2 h3 =>
    cases gt with
    | Ptr x => exact (h2 x x rfl rfl).elim
    | Array x => exact (h3 x x rfl rfl).elim
    | Generic g => exact (h1 g rfl).elim
    | Prim p => exact .same _
    | Fun a r => exact .same _
    | Def n => exact .same _
  | case7 t gt h1 h2 h3 hne =>
    rw [generic_match.eq_def] at h
    split at h
    · exact (h1 _ _ rfl rfl).elim
    · exact (h2 _ _ rfl rfl).elim
    · exact (h3 _ rfl).elim
    · rw [if_neg hne] at h; cases h

/-- The per-argument loop is sound: on success every argument/parameter pair
matches under the final bindings, and bindings are only ever appended. -/
theorem generic_match_list_sound :
    ∀ {pairs : List (LType × LType)} {m m' : List (Nat × LType)},
      generic_match_list m pairs = some m' →
      (∃ ext, m' = m ++ ext) ∧ ∀ p ∈ pairs, MatchesUnder m' p.1 p.2
  | [], m, m', h => by
    simp only [generic_match_list, Option.some.injEq] at h
    exact ⟨⟨[], by simp [h]⟩, by simp⟩
  | (t, gt) :: rest, m, m', h => by
    simp only [generic_match_list] at h
    cases hgm : generic_match m t gt with
    | none => rw [hgm] at h; cases h
    | some m₁ =>
      rw [hgm] at h
      obtain ⟨⟨ext, hext⟩, hrest⟩ := generic_match_list_sound h
      refine ⟨?_, ?_⟩
      · obtain ⟨ext₁, hext₁⟩ := generic_match_append hgm
        exact ⟨ext₁ ++ ext, by rw [hext, hext₁, List.append_assoc]⟩
      · intro p hp
        rcases List.mem_cons.mp hp with rfl | hp'
        · have := generic_match_sound hgm
          rw [hext]
          exact this.append
        · exact hrest p hp'

/-- `generic_match_sig` is sound: on success the arity matches, every pair
matches declaratively under the returned bindings, and every generic id the
definition declares is bound. -/
theorem generic_match_sig_sound {args : List LType} {d : FunctionDefinition}
    {m : List (Nat × LType)}
    (h : generic_match_sig [] args d d.signature = some m) :
    args.length = d.signature.args.length ∧
    (∀ p ∈ args.zip d.signature.args, MatchesUnder m p.1 p.2) ∧
    m.length = d.generics.length := by
  unfold generic_match_sig at h
  split at h
  · rename_i hlen
    cases hgo : generic_match_list [] (args.zip d.signature.args) with
    | none => rw [hgo] at h; cases h
    | some m₁ =>
      rw [hgo] at h
      dsimp only at h
      by_cases hcov : m₁.length = d.generics.length
      · rw [if_pos hcov] at h
        cases h
        exact ⟨hlen, (generic_match_list_sound hgo).2, hcov⟩
      · rw [if_neg hcov] at h
        cases h
  · cases h

/-- Soundness of the polymorphic search: a returned instance names a
polymorphic definition from the list whose name matches and whose parameters
all match the arguments declaratively, binding all declared generics. -/
theorem find_function_poly_sound {name : String} {args : List LType} :
    ∀ {l : List FunctionDefinition} {r : FindFunctionResult},
      find_function_poly name args l = some r →
      ∃ d ∈ l, ∃ m, r = .GenericInstance d.id m ∧
        d.generics ≠ [] ∧ d.name_in_code = name ∧
        args.length = d.signature.args.length ∧
        (∀ p ∈ args.zip d.signature.args, MatchesUnder m p.1 p.2) ∧
        m.length = d.generics.length
  | [], r, h => by simp [find_function_poly] at h
  | d :: rest, r, h => by
    simp only [find_function_poly] at h
    split at h
    · rename_i hcond
      cases hsig : generic_match_sig [] args d d.signature with
      | none =>
        rw [hsig] at h
        obtain ⟨d', hd', hrest⟩ := find_function_poly_sound h
        exact ⟨d', List.mem_cons_of_mem _ hd', hrest⟩
      | some m =>
        rw [hsig] at h
        cases h
        obtain ⟨hlen, hmatch, hcov⟩ := generic_match_sig_sound hsig
        simp only [Bool.and_eq_true, Bool.not_eq_true', decide_eq_true_eq] at hcond
        refine ⟨d, List.mem_cons_self d rest, m, rfl, ?_, hcond.2, hlen, hmatch, hcov⟩
        intro hg
        simp [hg, List.isEmpty] at hcond
    · obtain ⟨d', hd', hrest⟩ := find_function_poly_sound h
      exact ⟨d', List.mem_cons_of_mem _ hd', hrest⟩

/-- A concrete `TypeInfo` holding one polymorphic definition whose declared
generic id 77 is mentioned nowhere in its parameter list. -/
def c7Ti : TypeInfo :=
  { id := 0, type_defs := [], globals := [],
    functions := [
      { id := 5, module_id := 0, name_in_code := "f",
        signature := { return_type := .Prim .I64, args := [.Prim .I64] },
        generics := [77], implementation := .Intrinsic, loc := 0 }] }

/-- C7 counterexample: in `c7Ti` the polymorphic definition `f` has a matching
name and arity and its single declared parameter `i64` unifies with the
concrete argument `i64`, yet `find_function` reports no match, because the
unification bound none of the definition's declared generics
(`generics.len() == def.generics.len()` fails: 0 ≠ 1).  The claim's
"matches if and only if the name and arity match and unifying each declared
parameter ... succeeds" is therefore false at this input. -/
theorem find_function_counterexample :
    (∃ d ∈ c7Ti.functions, d.generics ≠ [] ∧ d.name_in_code = "f" ∧
      d.signature.args.length = 1 ∧
      generic_match [] (.Prim .I64) (.Prim .I64) = some []) ∧
    c7Ti.find_function "f" [.Prim .I64] = none := by
  constructor
  · refine ⟨_, List.mem_cons_self _ _, by simp, rfl, rfl, rfl⟩
  · rfl

/-- C7 (amended): function resolution with all argument types known.
1. If the registry holds a monomorphic definition with the name and exactly
   the argument types, resolution returns a `ConcreteFunction` naming such a
   definition (monomorphic definitions are preferred).
2. A returned `GenericInstance` names a polymorphic definition of that name
   whose arity matches, whose every declared parameter matches the
   corresponding argument under the returned bindings — first occurrence of a
   generic id binds it, later occurrences must carry an equal type, descending
   through matching ptr/array constructors (`MatchesUnder`) — and whose
   declared generics are all bound (`m.length = d.generics.length`, the
   condition the original claim omits); moreover no monomorphic definition
   matched exactly.
3. If resolution fails, no monomorphic definition matches exactly and every
   polymorphic candidate with the right name fails `generic_match_sig`.
4. On a generic match, the materialized instance's signature is the
   definition's with the bindings substituted (`generic_replace`), so the
   bound result type is the substituted return type. -/
theorem find_function_characterization (ti : TypeInfo) (name : String)
    (args : List LType) :
    ((∃ d ∈ ti.functions, d.generics = [] ∧ d.name_in_code = name ∧
        d.signature.args = args) →
      ∃ fid, ti.find_function name args = some (.ConcreteFunction fid) ∧
        ∃ d ∈ ti.functions, d.id = fid ∧ d.generics = [] ∧
          d.name_in_code = name ∧ d.signature.args = args) ∧
    (∀ fid m, ti.find_function name args = some (.GenericInstance fid m) →
      (∀ d ∈ ti.functions, ¬(d.generics = [] ∧ d.name_in_code = name ∧
        d.signature.args = args)) ∧
      ∃ d ∈ ti.functions, d.id = fid ∧ d.generics ≠ [] ∧
        d.name_in_code = name ∧
        args.length = d.signature.args.length ∧
        (∀ p ∈ args.zip d.signature.args, MatchesUnder m p.1 p.2) ∧
        m.length = d.generics.length) ∧
    (ti.find_function name args = none →
      ∀ d ∈ ti.functions,
        ¬(d.generics = [] ∧ d.name_in_code = name ∧ d.signature.args = args) ∧
        (d.generics ≠ [] → d.name_in_code = name →
          generic_match_sig [] args d d.signature = none)) ∧
    (∀ fid m gen d, ti.find_function name args = some (.GenericInstance fid m) →
      ti.get_function fid = some d →
      (∀ d' ∈ ti.functions, d'.id ≠ gen) →
      ∃ ti' def_, concrete_function ti gen (.GenericInstance fid m) =
          (gen, ti', gen + 1) ∧
        ti'.get_function gen = some def_ ∧
        def_.signature.return_type = generic_replace m d.signature.return_type ∧
        def_.signature.args = d.signature.args.map (generic_replace m) ∧
        def_.generics = []) := by
  have monoPred : ∀ d : FunctionDefinition,
      (d.generics.isEmpty && d.name_in_code = name && args = d.signature.args) = true ↔
      (d.generics = [] ∧ d.name_in_code = name ∧ d.signature.args = args) := by
    intro d
    constructor
    · intro h
      simp only [Bool.and_eq_true, decide_eq_true_eq] at h
      obtain ⟨⟨h1, h2⟩, h3⟩ := h
      exact ⟨List.isEmpty_iff.mp h1, h2, h3.symm⟩
    · rintro ⟨h1, h2, h3⟩
      simp only [Bool.and_eq_true, decide_eq_true_eq]
      exact ⟨⟨by simp [h1], h2⟩, h3.symm⟩
  refine ⟨?_, ?_, ?_, ?_⟩
  · rintro ⟨d, hd, hprops⟩
    unfold TypeInfo.find_function
    cases hfind : ti.functions.find? (fun d =>
        d.generics.isEmpty && d.name_in_code = name && args = d.signature.args) with
    | none =>
      exact absurd ((monoPred d).mpr hprops)
        (by simpa using List.find?_eq_none.mp hfind d hd)
    | some d' =>
      have hsat := List.find?_some hfind
      exact ⟨d'.id, rfl, d', List.mem_of_find?_eq_some hfind, rfl,
        (monoPred d').mp hsat⟩
  · intro fid m h
    unfold TypeInfo.find_function at h
    cases hfind : ti.functions.find? (fun d =>
        d.generics.isEmpty && d.name_in_code = name && args = d.signature.args) with
    | none =>
      rw [hfind] at h
      refine ⟨?_, ?_⟩
      · intro d hd hprops
        exact absurd ((monoPred d).mpr hprops)
          (by simpa using List.find?_eq_none.mp hfind d hd)
      · obtain ⟨d, hd, m', heq, hrest⟩ := find_function_poly_sound h
        cases heq
        exact ⟨d, hd, rfl, hrest⟩
    | some d' => rw [hfind] at h; cases h
  · intro h
    unfold TypeInfo.find_function at h
    cases hfind : ti.functions.find? (fun d =>
        d.generics.isEmpty && d.name_in_code = name && args = d.signature.args) with
    | none =>
      rw [hfind] at h
      intro d hd
      refine ⟨fun hprops => absurd ((monoPred d).mpr hprops)
          (by simpa using List.find?_eq_none.mp hfind d hd), ?_⟩
      intro hg hname
      cases hsig : generic_match_sig [] args d d.signature with
      | none => rfl
      | some m =>
        exfalso
        revert h
        have : ∀ l : List FunctionDefinition, d ∈ l →
            find_function_poly name args l = none → False := by
          intro l
          induction l with
          | nil => intro hmem; cases hmem
          | cons x xs ih =>
            intro hmem hnone
            simp only [find_function_poly] at hnone
            rcases List.mem_cons.mp hmem with rfl | hmem'
            · rw [if_pos (by simp [List.isEmpty_iff, hg, hname])] at hnone
              rw [hsig] at hnone
              cases hnone
            · split at hnone
              · split at hnone
                · cases hnone
                · exact ih hmem' hnone
              · exact ih hmem' hnone
        exact fun h => this ti.functions hd h
    | some d' => rw [hfind] at h; cases h
  · intro fid m gen d h hget hfresh
    simp only [concrete_function, hget]
    refine ⟨_,
      { id := gen, module_id := ti.id, name_in_code := d.name_in_code,
        signature := { return_type := generic_replace m d.signature.return_type,
                       args := d.signature.args.map (generic_replace m) },
        generics := [], implementation := d.implementation, loc := d.loc },
      rfl, ?_, rfl, rfl, rfl⟩
    unfold TypeInfo.get_function
    rw [List.find?_append]
    have hnone : ti.functions.find? (fun d' => d'.id = gen) = none := by
      apply List.find?_eq_none.mpr
      intro d' hd'
      simp [hfresh d' hd']
    rw [hnone]
    simp

/-- The monomorphic definition `g(i64) -> i64` of the witness registry. -/
def c7g : FunctionDefinition :=
  { id := 1, module_id := 0, name_in_code := "g",
    signature := { return_type := .Prim .I64, args := [.Prim .I64] },
    generics := [], implementation := .Intrinsic, loc := 0 }

/-- The polymorphic definition `h(ptr(T)) -> T` (generic id 9) of the witness
registry. -/
def c7h : FunctionDefinition :=
  { id := 2, module_id := 0, name_in_code := "h",
    signature := { return_type := .Generic 9, args := [.Ptr (.Generic 9)] },
    generics := [9], implementation := .Intrinsic, loc := 0 }

/-- A two-definition registry used to witness
`find_function_characterization`. -/
def c7W : TypeInfo :=
  { id := 0, type_defs := [], globals := [], functions := [c7g, c7h] }

/-- Witness for `find_function_characterization`: the first conjunct applied
to the monomorphic call `g(i64)` and the second to the polymorphic call
`h(ptr(u8))`, discharging their hypotheses by computation on `c7W`. -/
theorem find_function_characterization_witness :
    (∃ fid, c7W.find_function "g" [.Prim .I64] = some (.ConcreteFunction fid) ∧
      ∃ d ∈ c7W.functions, d.id = fid ∧ d.generics = [] ∧
        d.name_in_code = "g" ∧ d.signature.args = [.Prim .I64]) ∧
    ((∀ d ∈ c7W.functions, ¬(d.generics = [] ∧ d.name_in_code = "h" ∧
        d.signature.args = [.Ptr (.Prim .U8)])) ∧
      ∃ d ∈ c7W.functions, d.id = 2 ∧ d.generics ≠ [] ∧ d.name_in_code = "h" ∧
        [LType.Ptr (.Prim .U8)].length = d.signature.args.length ∧
        (∀ p ∈ [LType.Ptr (.Prim .U8)].zip d.signature.args,
          MatchesUnder [(9, .Prim .U8)] p.1 p.2) ∧
        [(9, LType.Prim .U8)].length = d.generics.length) :=
  ⟨(find_function_characterization c7W "g" [.Prim .I64]).1
      ⟨c7g, by simp [c7W], rfl, rfl, rfl⟩,
   (find_function_characterization c7W "h" [.Ptr (.Prim .U8)]).2.1
      2 [(9, .Prim .U8)] (by rfl)⟩

/-! ## Embedding of `src/compiler/src/inference.rs` -/

/-- source: `enum TypeClass` (inference.rs lines 133-137); renamed `NumCls`
here (the source name ends in a word reserved by this development's tooling). -/
inductive NumCls where
  | Float | Integer
deriving DecidableEq, Repr

/-- source: `TypeClass::contains_type` (inference.rs lines 140-145). -/
def NumCls.contains_type : NumCls → LType → Bool
  | .Float, t => t.float
  | .Integer, t => t.int

/-- source: `TypeClass::default_type` (inference.rs lines 147-152): the
numeric-class defaults, `Float -> F64` and `Integer -> I64`. -/
def NumCls.default_type : NumCls → Option LType
  | .Float => some (.Prim .F64)
  | .Integer => some (.Prim .I64)

/-- source: `enum TypeConstraint` (inference.rs lines 155-159); the `Class`
constructor is spelled `Cls` here for the same reason as `NumCls`. -/
inductive TypeConstraint where
  | Concrete (t : LType)
  | Cls (c : NumCls)
deriving DecidableEq, Repr

/-- A diagnostic: source `Error` values carry a `TextLocation` and a message
(error.rs); locations are embedded as `Nat` and messages kept constant per
call site (the claims depend on error kind and location, not text). -/
structure Diag where
  loc : Nat
  msg : String
deriving DecidableEq, Repr

/-- source: `enum Function` (inference.rs lines 629-632): a call's callee is
either a first-class value (by type symbol) or a name. -/
inductive Function where
  | Value (ts : Nat)
  | Name (sym : Symbol)
deriving DecidableEq, Repr

/-- source: `enum Constraint` (inference.rs lines 634-679).  Type symbols are
`Nat`. -/
inductive Constraint where
  | Assert (ts : Nat) (tc : TypeConstraint)
  | Equalivalent (a b : Nat)
  | Array (array element : Nat)
  | Convert (val : Nat) (into_type : LType)
  | FieldAccess (container : Nat) (field : Symbol) (result : Nat)
  | Constructor (type_name : String) (fields : List (Option Symbol × Nat))
      (result : Nat)
  | FunctionDef (name : String) (return_type : Nat)
      (args : List (Symbol × Nat)) (body : Nat) (loc : Nat)
  | FunctionCall (node : Nat) (function : Function)
      (args : List (Option Nat × Nat)) (result : Nat)
  | Index (node container index result : Nat)
  | GlobalDef (name : String) (type_symbol : Nat) (global_type : GlobalType)
      (loc : Nat)
  | GlobalReference (node : Nat) (name : String) (result : Nat)
deriving DecidableEq, Repr

/-- Association-list lookup (Rust `HashMap::get`). -/
def lookupA {α : Type} (l : List (Nat × α)) (k : Nat) : Option α :=
  (l.find? (fun p => p.1 = k)).map Prod.snd

/-- Association-list insert (Rust `HashMap::insert`): replace the binding if
the key is present, else add it. -/
def insertA {α : Type} : List (Nat × α) → Nat → α → List (Nat × α)
  | [], k, v => [(k, v)]
  | (k', v') :: rest, k, v =>
    if k' = k then (k', v) :: rest else (k', v') :: insertA rest k v

/-- The read-only context of a solver run: the location tables
(`Constraints::symbols` via `Inference::loc`, and node locations), plus
`Constraints::node_symbols` used for the final node-type assignment. -/
structure InferCtx where
  symLoc : Nat → Nat
  nodeLoc : Nat → Nat
  node_symbols : List (Nat × Nat)

/-- The mutable state of `struct Inference` (inference.rs lines 180-189):
the module registry `t`, the `resolved` map, the error list, the UID
generator, and the `CodegenInfo` tables it writes. -/
structure InferState where
  t : TypeInfo
  resolved : List (Nat × TypeConstraint)
  errors : List Diag
  gen : Nat
  function_references : List (Nat × Nat)
  global_references : List (Nat × String)
  node_type : List (Nat × LType)

/-- source: `Inference::get_type` (inference.rs lines 209-214).  Note that a
symbol resolved only to a numeric class is reported as that class's default
concrete type — whenever this is called, including mid-solve. -/
def get_type (st : InferState) (ts : Nat) : Option LType :=
  match lookupA st.resolved ts with
  | some (.Concrete t) => some t
  | some (.Cls c) => c.default_type
  | none => none

/-- source: `Inference::unify` (inference.rs lines 216-232). -/
def unify (a b : TypeConstraint) : Option TypeConstraint :=
  match a, b with
  | .Concrete ta, .Concrete tb => if ta = tb then some a else none
  | .Cls c, .Concrete t => if c.contains_type t then some (.Concrete t) else none
  | .Concrete t, .Cls c => if c.contains_type t then some (.Concrete t) else none
  | .Cls ca, .Cls cb => if ca = cb then some a else none

/-- source: `Inference::set_type_constraint` (inference.rs lines 234-249). -/
def set_type_constraint (ctx : InferCtx) (st : InferState) (ts : Nat)
    (tc : TypeConstraint) : InferState :=
  match lookupA st.resolved ts with
  | some prev_tc =>
    match unify prev_tc tc with
    | some tc' => { st with resolved := insertA st.resolved ts tc' }
    | none =>
      { st with errors := st.errors ++
          [⟨ctx.symLoc ts, "conflicting types inferred"⟩] }
  | none => { st with resolved := insertA st.resolved ts tc }

/-- source: `Inference::set_type` (inference.rs lines 251-253). -/
def set_type (ctx : InferCtx) (st : InferState) (ts : Nat) (t : LType) :
    InferState :=
  set_type_constraint ctx st ts (.Concrete t)

/-- source: `Inference::process_constraint` (inference.rs lines 312-575).
Returns the updated state and whether the constraint was discharged (the
source's `bool` return; arms that fall through to the final `false` are kept
for another pass).  `unwrap`s that are unreachable by construction (values
just produced by a lookup) fall back to leaving the state unchanged. -/
def process_constraint (ctx : InferCtx) (st : InferState) :
    Constraint → InferState × Bool
  | .Assert ts tc => (set_type_constraint ctx st ts tc, true)
  | .Equalivalent a b =>
    match get_type st a with
    | some t => (set_type ctx st b t, true)
    | none =>
      match get_type st b with
      | some t => (set_type ctx st a t, true)
      | none => (st, false)
  | .FunctionDef name return_type args body loc =>
    let resolved_args_count := (args.filterMap (fun p => get_type st p.2)).length
    let rt := get_type st return_type
    if resolved_args_count = args.length ∧ rt.isSome then
      let arg_names := args.map Prod.fst
      -- all arg symbols are resolved here, so the `unwrap` cannot fall back
      let arg_types := args.map (fun p => (get_type st p.2).getD (.Prim .Void))
      match st.t.find_function name arg_types with
      | some _ =>
        ({ st with errors := st.errors ++
            [⟨loc, "function with that name and signature already defined"⟩] },
         false)
      | none =>
        -- gen.next() is drawn once for the codegen name, once for the id
        let name_for_codegen := name ++ "." ++ toString st.gen
        let f : FunctionDefinition :=
          { id := st.gen + 1, module_id := st.t.id, name_in_code := name,
            signature := { return_type := rt.getD (.Prim .Void),
                           args := arg_types },
            generics := [],
            implementation := .Normal body name_for_codegen arg_names,
            loc := loc }
        ({ st with t := { st.t with functions := st.t.functions ++ [f] },
                   gen := st.gen + 2 }, true)
    else (st, false)
  | .FunctionCall node function args result =>
    let arg_types := args.filterMap (fun p => get_type st p.2)
    if arg_types.length = args.length then
      match function with
      | .Name sym =>
        match st.t.find_function sym.name arg_types with
        | some r =>
          let fr := concrete_function st.t st.gen r
          match fr.2.1.get_function fr.1 with
          | some def_ =>
            let st' := { st with
              t := fr.2.1
              gen := fr.2.2
              function_references := insertA st.function_references node fr.1 }
            (set_type ctx st' result def_.signature.return_type, true)
          | none => ({ st with t := fr.2.1, gen := fr.2.2 }, true)
        | none => (st, false)
      | .Value ts =>
        match get_type st ts with
        | some (.Fun sig_args sig_ret) => (set_type ctx st result sig_ret, true)
        | some _ =>
          ({ st with errors := st.errors ++
              [⟨ctx.symLoc ts, "cannot call value of this type as function"⟩] },
           true)
        | none => (st, false)
    else (st, false)
  | .Constructor type_name fields result =>
    match st.t.find_type_def type_name with
    | some def_ =>
      let st₁ :=
        match def_.kind with
        | .Struct =>
          if fields.length = def_.fields.length then
            let name_errors := (fields.zip def_.fields).filterMap
              (fun pr =>
                match pr.1.1 with
                | some field_name =>
                  if field_name.name ≠ pr.2.1.name then
                    some (⟨field_name.loc, "incorrect field name"⟩ : Diag)
                  else none
                | none => none)
            let st' := { st with errors := st.errors ++ name_errors }
            (fields.zip def_.fields).foldl
              (fun acc pr => set_type ctx acc pr.1.2 pr.2.2) st'
          else
            { st with errors := st.errors ++
                [⟨ctx.symLoc result,
                  "incorrect number of field arguments for struct"⟩] }
        | .Union =>
          match fields with
          | [(some sym, ts)] =>
            match def_.fields.find? (fun p => p.1.name = sym.name) with
            | some p => set_type ctx st ts p.2
            | none =>
              { st with errors := st.errors ++
                  [⟨sym.loc, "field does not exist in this union"⟩] }
          | _ =>
            { st with errors := st.errors ++
                [⟨ctx.symLoc result,
                  "incorrect number of field arguments for union"⟩] }
      (set_type ctx st₁ result (.Def type_name), true)
    | none => (st, false)
  | .Convert val into_type =>
    match get_type st val with
    | some t =>
      if (t.pointer && into_type.pointer)
          || (t.number && into_type.number)
          || (t.pointer && into_type.unsigned_int)
          || (t.unsigned_int && into_type.pointer) then
        (st, true)
      else
        ({ st with errors := st.errors ++
            [⟨ctx.symLoc val, "type conversion not supported"⟩] }, true)
    | none => (st, false)
  | .GlobalDef name type_symbol global_type loc =>
    match get_type st type_symbol with
    | some t =>
      match t with
      | .Fun sig_args sig_ret =>
        match st.t.find_function name sig_args with
        | some _ =>
          ({ st with errors := st.errors ++
              [⟨loc, "function with that name and signature already defined"⟩] },
           true)
        | none =>
          let f : FunctionDefinition :=
            { id := st.gen, module_id := st.t.id, name_in_code := name,
              signature := { return_type := sig_ret, args := sig_args },
              generics := [], implementation := .CFunction, loc := loc }
          ({ st with t := { st.t with functions := st.t.functions ++ [f] },
                     gen := st.gen + 1 }, true)
      | _ =>
        match st.t.find_global name with
        | some _ =>
          ({ st with errors := st.errors ++
              [⟨loc, "global with that name already defined"⟩] }, true)
        | none =>
          let g : GlobalDefinition :=
            { module_id := st.t.id, name := name, type_tag := t,
              global_type := global_type, loc := loc }
          ({ st with t := { st.t with globals := st.t.globals ++ [(name, g)] } },
           true)
    | none => (st, false)
  | .GlobalReference node name result =>
    let fallthrough : InferState × Bool :=
      match get_type st result with
      | some (.Fun sig_args sig_ret) =>
        match st.t.find_function name sig_args with
        | some r =>
          let fr := concrete_function st.t st.gen r
          ({ st with
              t := fr.2.1
              gen := fr.2.2
              function_references := insertA st.function_references node fr.1 },
           true)
        | none => (st, false)
      | _ => (st, false)
    match st.t.find_global name with
    | some def_ =>
      -- Repl globals use lexical scope; see the comment at inference.rs 500-502
      if !(def_.module_id = st.t.id ∧ def_.global_type = .Repl) then
        let st' := set_type ctx st result def_.type_tag
        ({ st' with global_references := insertA st'.global_references node name },
         true)
      else fallthrough
    | none => fallthrough
  | .Index node container index result =>
    match get_type st container, get_type st index with
    | some c, some i =>
      let indexOverload : InferState × Bool :=
        match st.t.find_function "Index" [c, i] with
        | some r =>
          let fr := concrete_function st.t st.gen r
          match fr.2.1.get_function fr.1 with
          | some def_ =>
            let st' := { st with
              t := fr.2.1
              gen := fr.2.2
              function_references := insertA st.function_references node fr.1 }
            (set_type ctx st' result def_.signature.return_type, true)
          | none => ({ st with t := fr.2.1, gen := fr.2.2 }, true)
        | none => (st, false)
      if i.int then
        match c with
        | .Ptr element => (set_type ctx st result element, true)
        | _ => indexOverload
      else indexOverload
    | _, _ => (st, false)
  | .FieldAccess container field result =>
    match get_type st container with
    | some t =>
      match t with
      | .Def name =>
        match st.t.find_type_def name with
        | some def_ =>
          match def_.fields.find? (fun p => p.1.name = field.name) with
          | some p => (set_type ctx st result p.2, true)
          | none =>
            ({ st with errors := st.errors ++
                [⟨field.loc, "type has no field with this name"⟩] }, true)
        | none => (st, false)
      | _ =>
        ({ st with errors := st.errors ++
            [⟨field.loc, "type has no field with this name"⟩] }, true)
    | none => (st, false)
  | .Array array element =>
    let st₁ :=
      match get_type st array with
      | some (.Array element_type) => set_type ctx st element element_type
      | _ => st
    let st₂ :=
      match get_type st₁ element with
      | some element_type => set_type ctx st₁ array (.Array element_type)
      | none => st₁
    -- the source's Array arm has no `return true`: it falls through to false
    (st₂, false)

/-- source: `Inference::unresolved_constraint_error` (inference.rs lines
259-310).  `Assert` panics in the source (it can never remain unresolved, see
`infer_solver_contract`) and `Equalivalent` returns without pushing an error;
both are embedded as `none`.  Every other arm pushes exactly one error at the
constraint's best location. -/
def unresolvedDiag (ctx : InferCtx) : Constraint → Option Diag
  | .Assert _ _ => none
  | .Equalivalent _ _ => none
  | .FunctionDef _ _ _ _ loc => some ⟨loc, "function definition not resolved"⟩
  | .FunctionCall node _ _ _ =>
    some ⟨ctx.nodeLoc node, "function call not resolved"⟩
  | .Constructor _ _ result =>
    some ⟨ctx.symLoc result, "constructor not resolved"⟩
  | .Convert val _ => some ⟨ctx.symLoc val, "convert not resolved"⟩
  | .GlobalDef _ _ _ loc => some ⟨loc, "global definition not resolved"⟩
  | .GlobalReference _ _ result =>
    some ⟨ctx.symLoc result, "global reference not resolved"⟩
  | .FieldAccess _ field _ =>
    some ⟨field.loc, "field access not resolved"⟩
  | .Array array _ => some ⟨ctx.symLoc array, "array literal not resolved"⟩
  | .Index node _ _ _ => some ⟨ctx.nodeLoc node, "array access not resolved"⟩

/-- One pass over a constraint list (both the initial `for` loop and the
`retain` call of `Inference::infer`, inference.rs lines 580-593): process the
constraints in order, threading the state, and keep exactly those that were
not discharged, in order. -/
def processPass (ctx : InferCtx) :
    InferState → List Constraint → InferState × List Constraint
  | st, [] => (st, [])
  | st, c :: rest =>
    let r := process_constraint ctx st c
    let r' := processPass ctx r.1 rest
    (r'.1, if r.2 then r'.2 else c :: r'.2)

theorem processPass_length_le (ctx : InferCtx) :
    ∀ (st : InferState) (cs : List Constraint),
      (processPass ctx st cs).2.length ≤ cs.length
  | st, [] => by simp [processPass]
  | st, c :: rest => by
    simp only [processPass]
    have := processPass_length_le ctx (process_constraint ctx st c).1 rest
    split <;> simp <;> omega

/-- The `while unused_constraints.len() > 0` loop of `Inference::infer`
(inference.rs lines 586-594): run passes until one makes no progress, counting
passes.  Each continuing pass strictly shrinks the unresolved list, which
bounds the recursion. -/
def solveLoop (ctx : InferCtx) (st : InferState) (unused : List Constraint)
    (passes : Nat) : InferState × List Constraint × Nat :=
  match unused with
  | [] => (st, [], passes)
  | c :: rest =>
    if h : (processPass ctx st (c :: rest)).2.length = (c :: rest).length then
      ((processPass ctx st (c :: rest)).1, (processPass ctx st (c :: rest)).2,
       passes + 1)
    else
      solveLoop ctx (processPass ctx st (c :: rest)).1
        (processPass ctx st (c :: rest)).2 (passes + 1)
termination_by unused.length
decreasing_by
  have := processPass_length_le ctx st (c :: rest)
  omega

/-- source: `Inference::infer` (inference.rs lines 577-623): a first pass over
all constraints, the pass-until-no-progress loop, one diagnostic per
unresolved constraint via `unresolved_constraint_error`, and (when there are
no errors) the final node-type assignment through the defaulting `get_type`.
Returns the final state, the constraints left unresolved, and the number of
passes taken (the source's `total_passes`).  The source's sanity-check
`panic!` and its printing are side effects outside the state and are not
modelled. -/
def infer (ctx : InferCtx) (st0 : InferState) (cs : List Constraint) :
    InferState × List Constraint × Nat :=
  let r1 := processPass ctx st0 cs
  let r2 := solveLoop ctx r1.1 r1.2 1
  let st3 := { r2.1 with errors :=
    r2.1.errors ++ r2.2.1.filterMap (unresolvedDiag ctx) }
  let st4 :=
    if st3.errors.isEmpty then
      { st3 with
        node_type := ctx.node_symbols.filterMap
          (fun p => (get_type st3 p.2).map (fun t => (p.1, t))) }
    else st3
  (st4, r2.2.1, r2.2.2)

/-! ### C2/C4: solver termination, diagnostics, and eager defaulting -/

theorem process_assert_true (ctx : InferCtx) (st : InferState) (ts : Nat)
    (tc : TypeConstraint) :
    (process_constraint ctx st (.Assert ts tc)).2 = true := rfl

/-- No `Assert` constraint survives a pass: its arm always reports
discharged. -/
theorem processPass_mem_not_assert (ctx : InferCtx) :
    ∀ (st : InferState) (cs : List Constraint) (c : Constraint),
      c ∈ (processPass ctx st cs).2 → ∀ ts tc, c ≠ .Assert ts tc
  | st, [], c => by simp [processPass]
  | st, c' :: rest, c => by
    intro hmem ts tc hEq
    subst hEq
    simp only [processPass] at hmem
    by_cases hb : (process_constraint ctx st c').2 = true
    · rw [if_pos hb] at hmem
      exact processPass_mem_not_assert ctx _ rest _ hmem ts tc rfl
    · rw [if_neg hb] at hmem
      rcases List.mem_cons.mp hmem with hEq' | hmem'
      · rw [← hEq'] at hb
        exact hb (process_assert_true ctx st ts tc)
      · exact processPass_mem_not_assert ctx _ rest _ hmem' ts tc rfl

theorem solveLoop_mem_not_assert (ctx : InferCtx) :
    ∀ (st : InferState) (unused : List Constraint) (p : Nat) (c : Constraint),
      c ∈ (solveLoop ctx st unused p).2.1 → ∀ ts tc, c ≠ .Assert ts tc
  | st, [], p, c => by simp [solveLoop]
  | st, c₀ :: rest, p, c => by
    intro hc
    rw [solveLoop] at hc
    split at hc
    · exact processPass_mem_not_assert ctx st (c₀ :: rest) c hc
    · exact solveLoop_mem_not_assert ctx _ _ _ c hc
termination_by _ unused _ _ => unused.length
decreasing_by
  have := processPass_length_le ctx st (c₀ :: rest)
  omega

theorem solveLoop_passes_le (ctx : InferCtx) :
    ∀ (st : InferState) (unused : List Constraint) (p : Nat),
      (solveLoop ctx st unused p).2.2 ≤ p + unused.length + 1
  | st, [], p => by simp [solveLoop]
  | st, c₀ :: rest, p => by
    rw [solveLoop]
    split
    · simp
    · rename_i h
      have hlen := processPass_length_le ctx st (c₀ :: rest)
      have ih := solveLoop_passes_le ctx (processPass ctx st (c₀ :: rest)).1
        (processPass ctx st (c₀ :: rest)).2 (p + 1)
      simp only [List.length_cons] at *
      omega
termination_by _ unused _ => unused.length
decreasing_by
  have := processPass_length_le ctx st (c₀ :: rest)
  omega

/-- A context with all locations zero, for concrete solver runs. -/
def zeroCtx : InferCtx := ⟨fun _ => 0, fun _ => 0, []⟩

/-- The empty solver state over an empty module registry. -/
def emptyInferState : InferState := ⟨⟨0, [], [], []⟩, [], [], 0, [], [], []⟩

theorem c2_run_eq :
    infer zeroCtx emptyInferState [.Equalivalent 1 2] =
      (emptyInferState, [.Equalivalent 1 2], 2) := by
  have h1 : processPass zeroCtx emptyInferState [.Equalivalent 1 2] =
      (emptyInferState, [.Equalivalent 1 2]) := rfl
  have h2 : solveLoop zeroCtx emptyInferState [.Equalivalent 1 2] 1 =
      (emptyInferState, [.Equalivalent 1 2], 2) := by
    rw [solveLoop]
    simp [h1]
  unfold infer
  rw [h1]
  dsimp only
  rw [h2]
  rfl

/-- C2 counterexample: on the single-constraint input `[Equalivalent 1 2]`
(with nothing known about either symbol) the solver exits with the constraint
unresolved and produces no diagnostic at all — `unresolved_constraint_error`
returns without pushing an error for equivalence constraints — and takes 2
passes, exceeding the initial constraint count of 1. -/
theorem infer_counterexample :
    (infer zeroCtx emptyInferState [.Equalivalent 1 2]).2.1 =
      [.Equalivalent 1 2] ∧
    (infer zeroCtx emptyInferState [.Equalivalent 1 2]).1.errors = [] ∧
    (infer zeroCtx emptyInferState [.Equalivalent 1 2]).2.2 = 2 ∧
    [Constraint.Equalivalent 1 2].length = 1 := by
  rw [c2_run_eq]
  exact ⟨rfl, rfl, rfl, rfl⟩

/-- C2 (amended): the solver always terminates; defining `infer` as a total
function is itself the termination argument, justified by the strict decrease
of the unresolved list on every continuing pass (`solveLoop`'s termination
measure).  Moreover: the number of passes is at most the initial constraint
count plus two; no assertion constraint ever remains unresolved; each
unresolved constraint other than an equivalence produces exactly one
diagnostic tied to its best source location, while unresolved equivalence
constraints produce none; and the final error list is the solver's errors
followed by exactly those diagnostics. -/
theorem infer_solver_contract (ctx : InferCtx) (st : InferState)
    (cs : List Constraint) :
    ((infer ctx st cs).2.2 ≤ cs.length + 2) ∧
    (∀ c ∈ (infer ctx st cs).2.1, ∀ ts tc, c ≠ .Assert ts tc) ∧
    (∀ c ∈ (infer ctx st cs).2.1,
      ((∃ a b, c = .Equalivalent a b) → unresolvedDiag ctx c = none) ∧
      ((∀ a b, c ≠ .Equalivalent a b) → ∃ d, unresolvedDiag ctx c = some d)) ∧
    ((infer ctx st cs).1.errors =
      (solveLoop ctx (processPass ctx st cs).1 (processPass ctx st cs).2 1).1.errors
        ++ (infer ctx st cs).2.1.filterMap (unresolvedDiag ctx)) := by
  have hpasses : (infer ctx st cs).2.2 ≤ cs.length + 2 := by
    have h1 := solveLoop_passes_le ctx (processPass ctx st cs).1
      (processPass ctx st cs).2 1
    have h2 := processPass_length_le ctx st cs
    have : (infer ctx st cs).2.2 =
        (solveLoop ctx (processPass ctx st cs).1 (processPass ctx st cs).2 1).2.2 :=
      rfl
    omega
  have hmem : ∀ c ∈ (infer ctx st cs).2.1, ∀ ts tc, c ≠ .Assert ts tc := by
    intro c hc
    have : (infer ctx st cs).2.1 =
        (solveLoop ctx (processPass ctx st cs).1 (processPass ctx st cs).2 1).2.1 :=
      rfl
    rw [this] at hc
    exact solveLoop_mem_not_assert ctx _ _ _ c hc
  refine ⟨hpasses, hmem, ?_, ?_⟩
  · intro c hc
    constructor
    · rintro ⟨a, b, rfl⟩; rfl
    · intro hne
      cases c with
      | Assert ts tc => exact absurd rfl (hmem _ hc ts tc)
      | Equalivalent a b => exact absurd rfl (hne a b)
      | Array a e => exact ⟨_, rfl⟩
      | Convert v t => exact ⟨_, rfl⟩
      | FieldAccess c f r => exact ⟨_, rfl⟩
      | Constructor n f r => exact ⟨_, rfl⟩
      | FunctionDef n rt a b l => exact ⟨_, rfl⟩
      | FunctionCall n f a r => exact ⟨_, rfl⟩
      | Index n c i r => exact ⟨_, rfl⟩
      | GlobalDef n t g l => exact ⟨_, rfl⟩
      | GlobalReference n na r => exact ⟨_, rfl⟩
  · unfold infer
    dsimp only
    split <;> rfl

/-- Witness for `infer_solver_contract`: instantiated on the one-constraint
input `[Array 1 2]`, whose constraint arm never reports progress, so it
remains unresolved; the membership and shape hypotheses are discharged by
computation. -/
theorem infer_solver_contract_witness :
    (∀ ts tc, Constraint.Array 1 2 ≠ .Assert ts tc) ∧
    (∃ d, unresolvedDiag zeroCtx (.Array 1 2) = some d) := by
  have h := infer_solver_contract zeroCtx emptyInferState [.Array 1 2]
  have hmem : Constraint.Array 1 2 ∈
      (infer zeroCtx emptyInferState [.Array 1 2]).2.1 := by
    have h1 : processPass zeroCtx emptyInferState [.Array 1 2] =
        (emptyInferState, [.Array 1 2]) := rfl
    have h2 : solveLoop zeroCtx emptyInferState [.Array 1 2] 1 =
        (emptyInferState, [.Array 1 2], 2) := by
      rw [solveLoop]
      simp [h1]
    have heq : (infer zeroCtx emptyInferState [.Array 1 2]).2.1 =
        [.Array 1 2] := by
      unfold infer
      rw [h1]
      dsimp only
      rw [h2]
    rw [heq]

    exact List.mem_cons_self _ _
  refine ⟨h.2.1 _ hmem, (h.2.2.1 _ hmem).2 ?_⟩
  intro a b hab
  exact Constraint.noConfusion hab

theorem lookupA_insertA_self {α : Type} :
    ∀ (l : List (Nat × α)) (k : Nat) (v : α),
      lookupA (insertA l k v) k = some v
  | [], k, v => by simp [insertA, lookupA]
  | (k', v') :: rest, k, v => by
    simp only [insertA]
    split
    · rename_i h
      simp [lookupA, List.find?, h]
    · rename_i h
      have ih := lookupA_insertA_self rest k v
      simp only [lookupA, List.find?] at ih ⊢
      rw [decide_eq_false h]
      exact ih

/-- C4 counterexample: with symbol 1 constrained only to the `Integer`
numeric class, discharging the constraint `Equalivalent 1 2` mid-solve reads
symbol 1 through the defaulting `get_type` and immediately fixes symbol 2 to
the concrete default `I64` — the defaults are not reserved for the end of
solving. -/
theorem defaults_applied_mid_solve :
    lookupA (⟨⟨0, [], [], []⟩, [(1, .Cls .Integer)], [], 0, [], [], []⟩ :
      InferState).resolved 1 = some (.Cls .Integer) ∧
    (process_constraint zeroCtx
      ⟨⟨0, [], [], []⟩, [(1, .Cls .Integer)], [], 0, [], [], []⟩
      (.Equalivalent 1 2)).2 = true ∧
    lookupA (process_constraint zeroCtx
      ⟨⟨0, [], [], []⟩, [(1, .Cls .Integer)], [], 0, [], [], []⟩
      (.Equalivalent 1 2)).1.resolved 2 = some (.Concrete (.Prim .I64)) :=
  ⟨rfl, rfl, rfl⟩

/-- C4 (amended): the numeric-class defaults are applied eagerly, not only at
the end of solving: `get_type` reports a class-constrained symbol as the
class's default concrete type whenever it is called, and in particular
discharging an equivalence constraint mid-solve fixes the other symbol to
that default. -/
theorem get_type_defaults_eagerly :
    (∀ (st : InferState) (ts : Nat) (cl : NumCls),
      lookupA st.resolved ts = some (.Cls cl) →
      get_type st ts = cl.default_type) ∧
    (∀ (ctx : InferCtx) (st : InferState) (a b : Nat) (cl : NumCls) (d : LType),
      lookupA st.resolved a = some (.Cls cl) →
      lookupA st.resolved b = none →
      cl.default_type = some d →
      (process_constraint ctx st (.Equalivalent a b)).2 = true ∧
      lookupA (process_constraint ctx st (.Equalivalent a b)).1.resolved b =
        some (.Concrete d)) := by
  constructor
  · intro st ts cl h
    unfold get_type
    rw [h]
  · intro ctx st a b cl d ha hb hd
    have hga : get_type st a = some d := by
      unfold get_type
      rw [ha]
      exact hd
    constructor
    · simp only [process_constraint, hga]
    · simp only [process_constraint, hga, set_type, set_type_constraint, hb]
      exact lookupA_insertA_self _ _ _

/-- Witness for `get_type_defaults_eagerly`, applied at the concrete state of
the counterexample scenario. -/
theorem get_type_defaults_eagerly_witness :
    (process_constraint zeroCtx
      ⟨⟨0, [], [], []⟩, [(3, .Cls .Float)], [], 0, [], [], []⟩
      (.Equalivalent 3 4)).2 = true ∧
    lookupA (process_constraint zeroCtx
      ⟨⟨0, [], [], []⟩, [(3, .Cls .Float)], [], 0, [], [], []⟩
      (.Equalivalent 3 4)).1.resolved 4 = some (.Concrete (.Prim .F64)) :=
  get_type_defaults_eagerly.2 zeroCtx
    ⟨⟨0, [], [], []⟩, [(3, .Cls .Float)], [], 0, [], [], []⟩
    3 4 .Float (.Prim .F64) rfl rfl rfl

/-! ## Embedding of `src/src/bytecode_vm.rs`

This file holds a complete pipeline: an expression-to-bytecode compiler and a
stack VM.  Its `Value`/`StructDef` types come from the sibling `value.rs`,
which is not under src/: values are modelled with the variants this file
uses, and the `Rc<RefCell<...>>` sharing of arrays and structs is modelled
with an explicit heap of addresses.  `f32` is modelled as `ℚ` (exact; NaN and
infinities are not representable).  Recursion over expressions and the VM
loop take explicit fuel; running out of fuel is reported distinctly and never
conflated with a source-level error. -/

namespace BVM

/-- source: `ExprTag` (parser, not under src/): the four tags this file's
`compile` dispatches on. -/
inductive SExprTag where
  | Tree (s : String)
  | Symbol (s : String)
  | LitFloat (f : ℚ)
  | LitBool (b : Bool)
deriving DecidableEq, Repr

/-- source: parser `Expr`/`Ast` (not under src/): a tagged tree node with
children and a location; the `ExprId` indirection through `Ast` is flattened
into direct children. -/
inductive SExpr where
  | mk (tag : SExprTag) (children : List SExpr) (loc : Nat)
deriving Repr

def SExpr.tag : SExpr → SExprTag
  | .mk t _ _ => t

def SExpr.children : SExpr → List SExpr
  | .mk _ c _ => c

def SExpr.loc : SExpr → Nat
  | .mk _ _ l => l

/-- source: `StructDef` from value.rs (not under src/): a name and ordered
field names, as used by `NewStruct`/`struct_field_index`. -/
structure StructDef where
  name : String
  fields : List String
deriving DecidableEq, Repr

/-- source: `Value` from value.rs (not under src/), restricted to the
variants `bytecode_vm.rs` constructs: floats, bools, unit, and
reference-counted arrays/structs (modelled as heap addresses). -/
inductive VmValue where
  | Float (q : ℚ)
  | Bool (b : Bool)
  | Unit
  | Array (addr : Nat)
  | Struct (addr : Nat)
deriving DecidableEq, Repr

/-- A heap object: the contents behind an `Rc<RefCell<...>>` handle. -/
inductive HeapObj where
  | arr (elems : List VmValue)
  | strct (sdef : StructDef) (fields : List VmValue)
deriving DecidableEq, Repr

/-- source: `enum BytecodeInstruction` (bytecode_vm.rs lines 12-30). -/
inductive BC where
  | Push (v : VmValue)
  | PushVar (slot : Nat)
  | Pop
  | NewArray (n : Nat)
  | NewStruct (sdef : StructDef)
  | StructFieldInit (i : Nat)
  | PushStructField (name : String)
  | SetStructField (name : String)
  | ArrayIndex
  | SetArrayIndex
  | SetVar (slot : Nat)
  | CallFunction (handle : Nat)
  | JumpIfFalse (target : Nat)
  | Jump (target : Nat)
  | BinaryOperator (op : String)
  | UnaryOperator (op : String)
deriving DecidableEq, Repr

/-- source: `BYTECODE_OPERATORS` (bytecode_vm.rs lines 34-38).  Note that
`"&&"` and `"||"` are members: they are ordinary operators to this compiler,
not jump-encoded forms. -/
def BYTECODE_OPERATORS : List String :=
  ["+", "-", "*", "/", ">", "<", "<=", ">=", "==", "&&", "||", "-", "!"]

/-- source: `struct FunctionInfo` (bytecode_vm.rs lines 42-51). -/
structure FunctionInfo where
  name : String
  arguments : List String
  locals : Nat
deriving DecidableEq, Repr

/-- source: `struct FunctionDef` (bytecode_vm.rs lines 68-72). -/
structure FunctionDef0 where
  handle : Nat
  bytecode : List BC
  info : FunctionInfo
deriving DecidableEq, Repr

/-- source: `struct VarScope` (bytecode_vm.rs lines 74-77). -/
structure VarScope where
  base_index : Nat
  vars : List String
deriving DecidableEq, Repr

/-- source: `struct LabelState` (bytecode_vm.rs lines 79-82). -/
structure LabelState where
  location : Nat
  references : List Nat
deriving DecidableEq, Repr

/-- The sentinel offset `usize::MAX` used for not-yet-resolved labels. -/
def USIZE_MAX : Nat := 18446744073709551615

/-- source: `struct Environment` (bytecode_vm.rs lines 84-110); the
`HashMap`s are association lists (`functions` insertion order matches handle
order since handles are drawn from `functions.len()`). -/
structure Env where
  functions : List (String × FunctionDef0)
  structs : List (String × StructDef)
  function_name : String
  arguments : List String
  locals : List VarScope
  labels : List (String × LabelState)
  max_locals : Nat
  instructions : List BC
  loop_break_labels : List String
deriving Repr

/-- source: `Environment::new` (bytecode_vm.rs lines 112-130). -/
def Env.new (function_name : String) (arguments : List String)
    (functions : List (String × FunctionDef0))
    (structs : List (String × StructDef)) : Env :=
  { functions := functions, structs := structs,
    function_name := function_name, arguments := arguments,
    locals := [{ base_index := 0, vars := arguments }],
    labels := [], max_locals := 0, instructions := [],
    loop_break_labels := [] }

/-- Association-list lookup keyed by `String`. -/
def lookupS {α : Type} (l : List (String × α)) (k : String) : Option α :=
  (l.find? (fun p => p.1 = k)).map Prod.snd

/-- Association-list insert keyed by `String` (HashMap insert: replace or
add). -/
def insertS {α : Type} : List (String × α) → String → α → List (String × α)
  | [], k, v => [(k, v)]
  | (k', v') :: rest, k, v =>
    if k' = k then (k', v) :: rest else (k', v') :: insertS rest k v

/-- source: `Environment::count_locals` (bytecode_vm.rs lines 199-207). -/
def Env.count_locals (env : Env) : Nat :=
  match env.locals.getLast? with
  | none => 0
  | some vs => vs.base_index + vs.vars.length

/-- The scan of `find_var_offset` (bytecode_vm.rs lines 209-218): scopes from
innermost to outermost, and within a scope the most recent binding wins. -/
def findVarInScopes (v : String) : List VarScope → Option Nat
  | [] => none
  | vs :: rest =>
    match vs.vars.reverse.findIdx? (fun x => x = v) with
    | some i => some (vs.base_index + (vs.vars.length - 1 - i))
    | none => findVarInScopes v rest

def Env.get_var_offset (env : Env) (v : String) : Option Nat :=
  findVarInScopes v env.locals.reverse

/-- source: `Environment::emit` (bytecode_vm.rs lines 152-156). -/
def Env.emit (env : Env) (instruction : BC) (do_emit : Bool) : Env :=
  if do_emit then { env with instructions := env.instructions ++ [instruction] }
  else env

/-- source: `Environment::emit_always` (bytecode_vm.rs lines 158-160). -/
def Env.emit_always (env : Env) (instruction : BC) : Env :=
  { env with instructions := env.instructions ++ [instruction] }

/-- source: `Environment::emit_label` (bytecode_vm.rs lines 162-169): resolve
the label to the current instruction index.  The source `panic!`s when a
label is resolved twice; the compiler never does this, and the embedding
performs the update unconditionally. -/
def Env.emit_label (env : Env) (label : String) : Env :=
  let f : String × LabelState → String × LabelState := fun p =>
    if p.1 = label then (p.1, { p.2 with location := env.instructions.length })
    else p
  { env with labels := env.labels.map f }

/-- source: `Environment::emit_jump` (bytecode_vm.rs lines 171-175). -/
def Env.emit_jump (env : Env) (label : String) : Env :=
  let f : String × LabelState → String × LabelState := fun p =>
    if p.1 = label then
      (p.1, { p.2 with references := p.2.references ++ [env.instructions.length] })
    else p
  let env' := { env with labels := env.labels.map f }
  env'.emit_always (.Jump USIZE_MAX)

/-- source: `Environment::emit_jump_if_false` (bytecode_vm.rs lines 177-181). -/
def Env.emit_jump_if_false (env : Env) (label : String) : Env :=
  let f : String × LabelState → String × LabelState := fun p =>
    if p.1 = label then
      (p.1, { p.2 with references := p.2.references ++ [env.instructions.length] })
    else p
  let env' := { env with labels := env.labels.map f }
  env'.emit_always (.JumpIfFalse USIZE_MAX)

/-- source: `Environment::label` (bytecode_vm.rs lines 183-197): pick the
first suffix `i` making `s_i` fresh and register the label with the sentinel
location.  The source loops unboundedly; at most `labels.length` candidates
can collide, so the first fresh index is found within `labels.length + 1`
tries (the fallback is unreachable). -/
def Env.label (env : Env) (s : String) : String × Env :=
  let name :=
    match (List.range (env.labels.length + 1)).find?
        (fun i => (lookupS env.labels (s ++ "_" ++ toString i)).isNone) with
    | some i => s ++ "_" ++ toString i
    | none => s ++ "_0"
  (name, { env with labels :=
    env.labels ++ [(name, { location := USIZE_MAX, references := [] })] })

/-- The jump-patching loop of `Environment::complete` (bytecode_vm.rs lines
132-143).  Each instruction index is referenced by at most one label, so the
iteration order over the label map is immaterial; insertion order is used. -/
def patchJumps (instructions : List BC)
    (labels : List (String × LabelState)) : List BC :=
  labels.foldl (fun ins p =>
    p.2.references.foldl (fun ins r =>
      match ins.get? r with
      | some (.Jump _) => ins.set r (.Jump p.2.location)
      | some (.JumpIfFalse _) => ins.set r (.JumpIfFalse p.2.location)
      | _ => ins) ins) instructions

/-- source: `Environment::complete` (bytecode_vm.rs lines 132-150): patch the
jumps and register the finished function under the next handle
(`functions.len()`). -/
def Env.complete (env : Env) : List (String × FunctionDef0) :=
  let instructions := patchJumps env.instructions env.labels
  insertS env.functions env.function_name
    { handle := env.functions.length, bytecode := instructions,
      info := { name := env.function_name, arguments := env.arguments,
                locals := env.max_locals } }

/-- A compile failure: a source-level error (location, message), a Rust
panic (index out of bounds and similar), or fuel exhaustion of this
embedding (the Rust recursion is structural and cannot diverge; fuel is an
artifact and is kept distinct from real errors). -/
inductive CErr where
  | Err (loc : Nat) (msg : String)
  | Panic (msg : String)
  | OutOfFuel
deriving DecidableEq, Repr

def SExpr.tree_symbol_unwrap (e : SExpr) : Except CErr String :=
  match e.tag with
  | .Tree s => .ok s
  | _ => .error (.Err e.loc "expected tree")

def SExpr.symbol_unwrap (e : SExpr) : Except CErr String :=
  match e.tag with
  | .Symbol s => .ok s
  | _ => .error (.Err e.loc "expected symbol")

/-- `does_not_push` (bytecode_vm.rs lines 242-250). -/
def does_not_push (e : SExpr) (push_answer : Bool) : Except CErr Unit :=
  if push_answer then
    match e.tag with
    | .Tree _ =>
      .error (.Err e.loc "instruction is void, where a result is expected")
    | _ => .error (.Err e.loc "expected tree")
  else .ok ()

/-- The field-name collection of the `struct_define` arm (bytecode_vm.rs
lines 373-377): indices `0, 2, 4, ...` strictly below `len - 1`. -/
def collectFieldNames : List SExpr → Except CErr (List String)
  | [] => .ok []
  | [_] => .ok []
  | e :: _ :: rest => do
    let n ← e.symbol_unwrap
    let ns ← collectFieldNames rest
    .ok (n :: ns)

/-- The parameter collection of the `fun` arm (bytecode_vm.rs lines
432-436): symbols at indices `0, 2, 4, ...` strictly below `len - 1`. -/
def collectParams : List SExpr → Except CErr (List String)
  | [] => .error (.Panic "length underflow: fun with no arg exprs")
  | [_] => .ok []
  | e :: _ :: rest => do
    let n ← e.symbol_unwrap
    let ns ← collectParams rest
    .ok (n :: ns)

set_option maxHeartbeats 1600000

mutual

/-- source: `fn compile` (bytecode_vm.rs lines 465-494). -/
def compile : Nat → SExpr → Env → Bool → Except CErr Env
  | 0, _, _, _ => .error .OutOfFuel
  | fuel + 1, e, env, push_answer =>
    match e.tag with
    | .Tree _ => compile_tree fuel e env push_answer
    | .Symbol s =>
      if s = "break" then
        match env.loop_break_labels.getLast? with
        | some l => .ok (env.emit_jump l)
        | none => .error (.Err e.loc "cant break outside a loop")
      else
        match env.get_var_offset s with
        | some offset => .ok (env.emit (.PushVar offset) push_answer)
        | none => .error (.Err e.loc "no variable called that found in scope")
    | .LitFloat f => .ok (env.emit (.Push (.Float f)) push_answer)
    | .LitBool b => .ok (env.emit (.Push (.Bool b)) push_answer)

/-- source: `fn compile_function_call` (bytecode_vm.rs lines 221-238). -/
def compile_function_call : Nat → SExpr → List SExpr → Env → Bool →
    Except CErr Env
  | 0, _, _, _, _ => .error .OutOfFuel
  | fuel + 1, function_name_expr, args, env, push_answer => do
    let function_name ← function_name_expr.symbol_unwrap
    let env ← compile_args fuel args env
    match lookupS env.functions function_name with
    | none => .error (.Err function_name_expr.loc "found no function with this name")
    | some fdef =>
      let env := env.emit_always (.CallFunction fdef.handle)
      if !push_answer then .ok (env.emit_always .Pop) else .ok env

/-- The `for i in 0..args.len()` argument loop of `compile_function_call`. -/
def compile_args : Nat → List SExpr → Env → Except CErr Env
  | 0, _, _ => .error .OutOfFuel
  | _ + 1, [], env => .ok env
  | fuel + 1, a :: rest, env => do
    let env ← compile fuel a env true
    compile_args fuel rest env

/-- The `for i in 0..(num_exprs-1)` prefix of the `block` arm followed by the
final child (bytecode_vm.rs lines 279-294): all but the last child compile in
statement position.  An empty block indexes `exprs[-1]` in the source and
panics. -/
def compile_block : Nat → List SExpr → Env → Bool → Except CErr Env
  | 0, _, _, _ => .error .OutOfFuel
  | _ + 1, [], _, _ => .error (.Panic "index out of bounds: empty block")
  | fuel + 1, [e], env, push_answer => compile fuel e env push_answer
  | fuel + 1, e :: rest, env, push_answer => do
    let env ← compile fuel e env false
    compile_block fuel rest env push_answer

/-- The `(field, value)` pair loop of the `struct_instantiate` arm
(bytecode_vm.rs lines 395-401), threading the remaining field-index map. -/
def compile_struct_fields : Nat → List SExpr → Env → Bool →
    List (String × Nat) → Except CErr (Env × List (String × Nat))
  | 0, _, _, _, _ => .error .OutOfFuel
  | _ + 1, [], env, _, index_map => .ok (env, index_map)
  | _ + 1, [_], env, _, index_map =>
    -- an odd tail is impossible: arity was checked to be odd overall
    .ok (env, index_map)
  | fuel + 1, fexpr :: vexpr :: rest, env, push_answer, index_map => do
    let field_name ← fexpr.symbol_unwrap
    let env ← compile fuel vexpr env push_answer
    match lookupS index_map field_name with
    | none => .error (.Err fexpr.loc "field does not exist")
    | some index =>
      let env := env.emit (.StructFieldInit index) push_answer
      compile_struct_fields fuel rest env push_answer
        (index_map.filter (fun p => p.1 ≠ field_name))

/-- source: `fn compile_tree` (bytecode_vm.rs lines 240-462). -/
def compile_tree : Nat → SExpr → Env → Bool → Except CErr Env
  | 0, _, _, _ => .error .OutOfFuel
  | fuel + 1, e, env, push_answer => do
  let instr ← e.tree_symbol_unwrap
  match instr, e.children with
  | "call", exprs =>
    match exprs with
    | [] => .error (.Panic "index out of bounds: empty call")
    | fexpr :: params => do
      let symbol ← fexpr.symbol_unwrap
      if BYTECODE_OPERATORS.contains symbol then
        match params with
        | [a, b] => do
          let env ← compile fuel a env push_answer
          let env ← compile fuel b env push_answer
          .ok (env.emit (.BinaryOperator symbol) push_answer)
        | [v] => do
          let env ← compile fuel v env push_answer
          .ok (env.emit (.UnaryOperator symbol) push_answer)
        | _ => .error (.Err e.loc "wrong number of arguments for operator")
      else compile_function_call fuel fexpr params env push_answer
  | "block", exprs => do
    let env := { env with locals := env.locals ++ [{ base_index := env.count_locals, vars := [] }] }
    let env ← compile_block fuel exprs env push_answer
    let new_local_count := env.count_locals
    let env :=
      if new_local_count > env.max_locals then
        { env with max_locals := new_local_count }
      else env
    .ok { env with locals := env.locals.dropLast }
  | "let", exprs => do
    let _ ← does_not_push e push_answer
    match exprs with
    | e0 :: e1 :: _ => do
      let name ← e0.symbol_unwrap
      let env ← compile fuel e1 env true
      let offset := env.count_locals
      -- `locals.last_mut().unwrap()`: the scope stack is never empty here
      let newLast : List VarScope :=
        match env.locals.getLast? with
        | some vs => [{ vs with vars := vs.vars ++ [name] }]
        | none => []
      let env := { env with locals := env.locals.dropLast ++ newLast }
      .ok (env.emit_always (.SetVar offset))
    | _ => .error (.Panic "index out of bounds: malformed let")
  | "=", [_, assign_expr, value_expr] =>
    match assign_expr.tag with
    | .Symbol var_symbol => do
      does_not_push e push_answer
      let env ← compile fuel value_expr env true
      match env.get_var_offset var_symbol with
      | some offset => .ok (env.emit_always (.SetVar offset))
      | none =>
        .error (.Err assign_expr.loc "no variable called that found in scope")
    | .Tree symbol => do
      does_not_push e push_answer
      match symbol, assign_expr.children with
      | "index", [array_expr, index_expr] => do
        let env ← compile fuel array_expr env true
        let env ← compile fuel index_expr env true
        let env ← compile fuel value_expr env true
        .ok (env.emit_always .SetArrayIndex)
      | ".", [struct_expr, field_expr] => do
        let env ← compile fuel struct_expr env true
        let env ← compile fuel value_expr env true
        let field_name ← field_expr.symbol_unwrap
        .ok (env.emit_always (.SetStructField field_name))
      | _, _ => .error (.Err assign_expr.loc "cant assign to this")
    | _ => .error (.Err assign_expr.loc "cant assign to this")
  | "if", exprs => do
    let arg_count := exprs.length
    if arg_count < 2 || arg_count > 3 then
      .error (.Err e.loc "malformed if expression")
    else
      match exprs with
      | [cond, thenb, elseb] => do
        let (false_label, env) := env.label "if_false_label"
        let (else_end_label, env) := env.label "else_end_label"
        let env ← compile fuel cond env true
        let env := env.emit_jump_if_false false_label
        let env ← compile fuel thenb env push_answer
        let env := env.emit_jump else_end_label
        let env := env.emit_label false_label
        let env ← compile fuel elseb env push_answer
        .ok (env.emit_label else_end_label)
      | [cond, thenb] => do
        let (false_label, env) := env.label "if_false_label"
        does_not_push e push_answer
        let env ← compile fuel cond env true
        let env := env.emit_jump_if_false false_label
        let env ← compile fuel thenb env false
        .ok (env.emit_label false_label)
      | _ => .error (.Err e.loc "malformed if expression")
  | "struct_define", exprs =>
    match exprs with
    | [] => .error (.Err e.loc "malformed struct definition")
    | name_expr :: field_exprs => do
      let name ← name_expr.symbol_unwrap
      if (lookupS env.structs name).isSome then
        .error (.Err name_expr.loc "a struct with this name is already defined")
      else
        match field_exprs with
        | [] =>
          -- `(0..(field_exprs.len()-1))` underflows on usize 0 in the source
          .error (.Panic "length underflow: struct with no field exprs")
        | _ => do
          let fields ← collectFieldNames field_exprs
          .ok { env with structs := insertS env.structs name { name := name, fields := fields } }
  | "struct_instantiate", exprs =>
    if exprs.length < 1 || exprs.length % 2 = 0 then
      .error (.Err e.loc "malformed struct instantiation")
    else
      match exprs with
      | [] => .error (.Err e.loc "malformed struct instantiation")
      | name_expr :: field_pairs => do
        let name ← name_expr.symbol_unwrap
        match lookupS env.structs name with
        | none => .error (.Err name_expr.loc "struct does not exist")
        | some sdef => do
          let env := env.emit (.NewStruct sdef) push_answer
          let index_map := (List.range sdef.fields.length).zip sdef.fields
            |>.map (fun p => (p.2, p.1))
          let r ← compile_struct_fields fuel field_pairs env push_answer index_map
          if r.2.length > 0 then
            .error (.Err e.loc "some fields not initialised")
          else .ok r.1
  | ".", [_, sub, field_name] => do
    let env ← compile fuel sub env push_answer
    let name ← field_name.symbol_unwrap
    .ok (env.emit (.PushStructField name) push_answer)
  | "while", exprs => do
    does_not_push e push_answer
    if exprs.length ≠ 2 then .error (.Err e.loc "malformed while block")
    else
      match exprs with
      | [cond, body] => do
        let (condition_label, env) := env.label "loop_condition"
        let (end_label, env) := env.label "loop_end"
        let env := { env with loop_break_labels := env.loop_break_labels ++ [end_label] }
        let env := env.emit_label condition_label
        let env ← compile fuel cond env true
        let env := env.emit_jump_if_false end_label
        let env ← compile fuel body env false
        let env := env.emit_jump condition_label
        let env := env.emit_label end_label
        .ok { env with loop_break_labels := env.loop_break_labels.dropLast }
      | _ => .error (.Err e.loc "malformed while block")
  | "fun", exprs =>
    match exprs with
    | e0 :: e1 :: e2 :: _ => do
      let name ← e0.symbol_unwrap
      let params ← collectParams e1.children
      let new_env := Env.new name params env.functions env.structs
      let new_env ← compile fuel e2 new_env true
      .ok { env with functions := new_env.complete, structs := new_env.structs }
    | _ => .error (.Panic "index out of bounds: malformed fun")
  | "literal_array", exprs => do
    let env ← compile_each fuel exprs env push_answer
    .ok (env.emit (.NewArray exprs.length) push_answer)
  | "index", exprs =>
    match exprs with
    | [array_expr, index_expr] => do
      let env ← compile fuel array_expr env push_answer
      let env ← compile fuel index_expr env push_answer
      .ok (env.emit .ArrayIndex push_answer)
    | _ => .error (.Err e.loc "index instruction expected 2 arguments")
  | _, _ => .error (.Err e.loc "instruction is not supported by the interpreter")

/-- The element loop of the `literal_array` arm (bytecode_vm.rs lines
441-445): every element inherits the push flag. -/
def compile_each : Nat → List SExpr → Env → Bool → Except CErr Env
  | 0, _, _, _ => .error .OutOfFuel
  | _ + 1, [], env, _ => .ok env
  | fuel + 1, a :: rest, env, push_answer => do
    let env ← compile fuel a env push_answer
    compile_each fuel rest env push_answer

end

set_option maxHeartbeats 400000

/-- The `sort_unstable_by_key(|d| d.handle)` step of `compile_bytecode`:
handles are distinct, so any comparison sort has the same result; this is the
standard structural insertion sort by handle. -/
def insertByHandle (d : FunctionDef0) : List FunctionDef0 → List FunctionDef0
  | [] => [d]
  | x :: xs => if d.handle ≤ x.handle then d :: x :: xs else x :: insertByHandle d xs

def sortByHandle : List FunctionDef0 → List FunctionDef0
  | [] => []
  | x :: xs => insertByHandle x (sortByHandle xs)

/-- source: `fn compile_bytecode` (bytecode_vm.rs lines 496-512): compile the
root in value position under an entry function, then lay the functions out by
handle (handles are `functions.len()` at completion, so insertion order is
already handle order). -/
def compile_bytecode (fuel : Nat) (ast : SExpr) (entry_function_name : String) :
    Except CErr (List (List BC) × List FunctionInfo) := do
  let env := Env.new entry_function_name [] [] []
  let env ← compile fuel ast env true
  let functions := env.complete
  let defs := sortByHandle (functions.map Prod.snd)
  .ok (defs.map (·.bytecode), defs.map (·.info))

/-! ### The stack VM (`interpret_bytecode`, bytecode_vm.rs lines 514-721) -/

/-- A runtime failure: a VM error (including modelled Rust panics on stack or
index misuse) or fuel exhaustion of this embedding (the source VM can loop
forever; fuel is the standard artifact and is kept distinct). -/
inductive VmErr where
  | Err (msg : String)
  | OutOfFuel
deriving DecidableEq, Repr

/-- source: `fn to_f` (bytecode_vm.rs lines 514-519). -/
def to_f : VmValue → Except VmErr ℚ
  | .Float f => .ok f
  | _ => .error (.Err "expected float")

/-- source: `fn to_b` (bytecode_vm.rs lines 520-525). -/
def to_b : VmValue → Except VmErr Bool
  | .Bool b => .ok b
  | _ => .error (.Err "expected boolean")

/-- source: `fn to_array` (bytecode_vm.rs lines 526-531), returning the heap
address of the shared array. -/
def to_array : VmValue → Except VmErr Nat
  | .Array a => .ok a
  | _ => .error (.Err "expected array")

/-- source: `fn to_struct` (bytecode_vm.rs lines 532-537). -/
def to_struct : VmValue → Except VmErr Nat
  | .Struct s => .ok s
  | _ => .error (.Err "expected struct")

/-- source: `fn struct_field_index` (bytecode_vm.rs lines 538-541). -/
def struct_field_index (sdef : StructDef) (field_name : String) :
    Except VmErr Nat :=
  match sdef.fields.findIdx? (fun s => s = field_name) with
  | some i => .ok i
  | none => .error (.Err "field does not exist on struct")

/-- Rust `f32 as usize`: truncation toward zero, saturating at 0 for negative
values (for `q ≥ 0` truncation equals the floor).  NaN and infinities are not
representable in the `ℚ` model. -/
def floatAsUsize (q : ℚ) : Nat := if q < 0 then 0 else ⌊q⌋.toNat

/-- source: `fn array_index` (bytecode_vm.rs lines 543-551): the float index
is converted with `as usize` (truncation) first, and the bounds check then
requires `index >= 0.0 && i < array.len()`. -/
def array_index (array : List VmValue) (index : ℚ) : Except VmErr Nat :=
  let i := floatAsUsize index
  if 0 ≤ index ∧ i < array.length then .ok i
  else .error (.Err "index out of bounds error")

mutual

/-- Deep value equality (`PartialEq` on `Value`, derived in value.rs:
`Rc<RefCell<...>>` comparison goes through the contents).  The depth bound
makes the recursion through the heap total; `heap.length + 1` suffices for
any acyclic heap, and on a cyclic heap the Rust comparison does not
terminate. -/
def valueEqD (heap : List HeapObj) : Nat → VmValue → VmValue → Bool
  | 0, _, _ => false
  | _ + 1, .Float a, .Float b => a = b
  | _ + 1, .Bool a, .Bool b => a = b
  | _ + 1, .Unit, .Unit => true
  | d + 1, .Array a, .Array b =>
    (match heap.get? a, heap.get? b with
     | some (.arr xs), some (.arr ys) => valueListEqD heap d xs ys
     | _, _ => false)
  | d + 1, .Struct a, .Struct b =>
    (match heap.get? a, heap.get? b with
     | some (.strct da fa), some (.strct db fb) =>
       da = db && valueListEqD heap d fa fb
     | _, _ => false)
  | _ + 1, _, _ => false

def valueListEqD (heap : List HeapObj) (d : Nat) :
    List VmValue → List VmValue → Bool
  | [], [] => true
  | x :: xs, y :: ys => valueEqD heap d x y && valueListEqD heap d xs ys
  | _, _ => false

end

/-- source: `struct Call` (bytecode_vm.rs lines 553-557). -/
structure Call where
  function_handle : Nat
  var_base : Nat
  program_counter : Nat
deriving DecidableEq, Repr

/-- The VM state threaded through the interpreter loop: the operand stack
(index 0 is the bottom, as in the source `Vec`), the call stack, the current
frame and the heap backing `Rc<RefCell<...>>` values. -/
structure VmState where
  stack : List VmValue
  callstack : List Call
  c : Call
  heap : List HeapObj
deriving DecidableEq, Repr

/-- source: `fn new_function_call` (bytecode_vm.rs lines 559-570): reserve
uninitialized locals (unit placeholders) and set the frame base so argument
slots align with the already-pushed arguments.  Both usize subtractions of
the source panic on underflow; each is modelled as a distinct error. -/
def new_function_call (function_handle : Nat) (stack : List VmValue)
    (info : List FunctionInfo) : Except VmErr (List VmValue × Call) :=
  match info.get? function_handle with
  | none => .error (.Err "panic: bad function handle")
  | some fi =>
    let args := fi.arguments.length
    if fi.locals < args then
      -- `info.locals - args` is a usize subtraction: it panics when the
      -- function records fewer locals than arguments (reachable for a `fun`
      -- whose body is not a block, since only the block arm raises
      -- `max_locals`)
      .error (.Err "panic: locals underflow")
    else
      let stack := stack ++ List.replicate (fi.locals - args) VmValue.Unit
      if stack.length < fi.locals then
        -- `stack.len() - info.locals` is likewise a panicking usize
        -- subtraction
        .error (.Err "panic: frame underflow")
      else
        .ok (stack, { function_handle := function_handle,
                      var_base := stack.length - fi.locals,
                      program_counter := 0 })

/-- `Vec::pop` with `unwrap` (top of the operand stack is the list's last
element). -/
def popV (s : List VmValue) : Except VmErr (VmValue × List VmValue) :=
  match s.getLast? with
  | some v => .ok (v, s.dropLast)
  | none => .error (.Err "panic: pop on empty stack")

/-- The `BinaryOperator` arm (bytecode_vm.rs lines 670-688).  Both operands
were already popped from the stack — both were fully evaluated — before the
operator is looked at; note the `"&&"`/`"||"` cases, which are ordinary
opcodes here. -/
def applyBinaryOperator (heap : List HeapObj) (op : String) (a b : VmValue) :
    Except VmErr VmValue :=
  match op with
  | "+" => do let x ← to_f a; let y ← to_f b; .ok (.Float (x + y))
  | "-" => do let x ← to_f a; let y ← to_f b; .ok (.Float (x - y))
  | "*" => do let x ← to_f a; let y ← to_f b; .ok (.Float (x * y))
  | "/" => do let x ← to_f a; let y ← to_f b; .ok (.Float (x / y))
  | ">" => do let x ← to_f a; let y ← to_f b; .ok (.Bool (x > y))
  | "<" => do let x ← to_f a; let y ← to_f b; .ok (.Bool (x < y))
  | "<=" => do let x ← to_f a; let y ← to_f b; .ok (.Bool (x ≤ y))
  | ">=" => do let x ← to_f a; let y ← to_f b; .ok (.Bool (x ≥ y))
  | "==" => .ok (.Bool (valueEqD heap (heap.length + 1) a b))
  | "&&" => do
    let x ← to_b a
    if x then do let y ← to_b b; .ok (.Bool y) else .ok (.Bool false)
  | "||" => do
    let x ← to_b a
    if x then .ok (.Bool true) else do let y ← to_b b; .ok (.Bool y)
  | _ => .error (.Err "unsupported binary operator")

/-- The `UnaryOperator` arm (bytecode_vm.rs lines 689-697). -/
def applyUnaryOperator (op : String) (a : VmValue) : Except VmErr VmValue :=
  match op with
  | "-" => do let x ← to_f a; .ok (.Float (-x))
  | "!" => do let x ← to_b a; .ok (.Bool !x)
  | _ => .error (.Err "unsupported unary operator")

/-- source: the interpreter loop of `interpret_bytecode` (bytecode_vm.rs
lines 572-703), one fuel unit per executed instruction (or return). -/
def vmRun (bytecode : List (List BC)) (info : List FunctionInfo) :
    Nat → VmState → Except VmErr VmValue
  | 0, _ => .error .OutOfFuel
  | fuel + 1, st =>
    match bytecode.get? st.c.function_handle with
    | none => .error (.Err "panic: bad function handle")
    | some instructions =>
      if st.c.program_counter ≥ instructions.length then
        -- implicit return: pop the result, restore the caller frame
        match popV st.stack with
        | .error e => .error e
        | .ok (return_value, stack) =>
          if st.c.var_base = 0 then .ok return_value
          else
            let stack := stack.take st.c.var_base ++ [return_value]
            match st.callstack.getLast? with
            | none => .error (.Err "panic: pop on empty callstack")
            | some c' =>
              vmRun bytecode info fuel
                { stack := stack
                  callstack := st.callstack.dropLast
                  c := { c' with program_counter := c'.program_counter + 1 }
                  heap := st.heap }
      else
        match instructions.get? st.c.program_counter with
        | none => .error (.Err "panic: bad program counter")
        | some instr =>
          let next := fun (st' : VmState) =>
            vmRun bytecode info fuel
              { st' with c := { st'.c with
                  program_counter := st'.c.program_counter + 1 } }
          let jump := fun (st' : VmState) (target : Nat) =>
            vmRun bytecode info fuel
              { st' with c := { st'.c with program_counter := target } }
          match instr with
          | .Push v => next { st with stack := st.stack ++ [v] }
          | .Pop => next { st with stack := st.stack.dropLast }
          | .PushVar slot =>
            (match st.stack.get? (st.c.var_base + slot) with
             | some v => next { st with stack := st.stack ++ [v] }
             | none => .error (.Err "panic: bad variable slot"))
          | .NewArray n =>
            if st.stack.length < n then .error (.Err "panic: pop on empty stack")
            else
              let elems := st.stack.drop (st.stack.length - n)
              next { st with
                stack := st.stack.take (st.stack.length - n) ++ [.Array st.heap.length]
                heap := st.heap ++ [.arr elems] }
          | .ArrayIndex => do
            let (iv, stack) ← popV st.stack
            let float_index ← to_f iv
            let (av, stack) ← popV stack
            let addr ← to_array av
            match st.heap.get? addr with
            | some (.arr a) => do
              let i ← array_index a float_index
              match a.get? i with
              | some v => next { st with stack := stack ++ [v] }
              | none => .error (.Err "panic: bad element index")
            | _ => .error (.Err "panic: bad heap address")
          | .SetArrayIndex => do
            let (v, stack) ← popV st.stack
            let (iv, stack) ← popV stack
            let f_index ← to_f iv
            let (av, stack) ← popV stack
            let addr ← to_array av
            match st.heap.get? addr with
            | some (.arr a) => do
              let i ← array_index a f_index
              next { st with
                stack := stack
                heap := st.heap.set addr (.arr (a.set i v)) }
            | _ => .error (.Err "panic: bad heap address")
          | .NewStruct sdef =>
            next { st with
              stack := st.stack ++ [.Struct st.heap.length]
              heap := st.heap ++ [.strct sdef (List.replicate sdef.fields.length .Unit)] }
          | .StructFieldInit index => do
            let (v, stack) ← popV st.stack
            match stack.getLast? with
            | none => .error (.Err "panic: empty stack")
            | some sv => do
              let addr ← to_struct sv
              match st.heap.get? addr with
              | some (.strct sdef fields) =>
                if index < fields.length then
                  next { st with
                    stack := stack
                    heap := st.heap.set addr (.strct sdef (fields.set index v)) }
                else .error (.Err "panic: bad field index")
              | _ => .error (.Err "panic: bad heap address")
          | .PushStructField name => do
            let (sv, stack) ← popV st.stack
            let addr ← to_struct sv
            match st.heap.get? addr with
            | some (.strct sdef fields) => do
              let index ← struct_field_index sdef name
              match fields.get? index with
              | some v => next { st with stack := stack ++ [v] }
              | none => .error (.Err "panic: bad field index")
            | _ => .error (.Err "panic: bad heap address")
          | .SetStructField name => do
            let (v, stack) ← popV st.stack
            let (sv, stack) ← popV stack
            let addr ← to_struct sv
            match st.heap.get? addr with
            | some (.strct sdef fields) => do
              let index ← struct_field_index sdef name
              if index < fields.length then
                next { st with
                  stack := stack
                  heap := st.heap.set addr (.strct sdef (fields.set index v)) }
              else .error (.Err "panic: bad field index")
            | _ => .error (.Err "panic: bad heap address")
          | .SetVar slot => do
            let (v, stack) ← popV st.stack
            if st.c.var_base + slot < stack.length then
              next { st with stack := stack.set (st.c.var_base + slot) v }
            else .error (.Err "panic: bad variable slot")
          | .CallFunction handle => do
            let r ← new_function_call handle st.stack info
            vmRun bytecode info fuel
              { stack := r.1
                callstack := st.callstack ++ [st.c]
                c := r.2
                heap := st.heap }
          | .JumpIfFalse target => do
            let (v, stack) ← popV st.stack
            let b ← to_b v
            if !b then jump { st with stack := stack } target
            else next { st with stack := stack }
          | .Jump target => jump st target
          | .BinaryOperator op => do
            let (b, stack) ← popV st.stack
            let (a, stack) ← popV stack
            let v ← applyBinaryOperator st.heap op a b
            next { st with stack := stack ++ [v] }
          | .UnaryOperator op => do
            let (a, stack) ← popV st.stack
            let v ← applyUnaryOperator op a
            next { st with stack := stack ++ [v] }

/-- source: `fn interpret_bytecode` entry (bytecode_vm.rs lines 572-575). -/
def interpret_bytecode (fuel : Nat) (bytecode : List (List BC))
    (info : List FunctionInfo) (entry_function : Nat) :
    Except VmErr VmValue := do
  let r ← new_function_call entry_function [] info
  vmRun bytecode info fuel { stack := r.1, callstack := [], c := r.2, heap := [] }

/-- A whole-pipeline result: compile failure, runtime failure, or a value. -/
inductive RunResult where
  | compileError (e : CErr)
  | runtimeError (e : VmErr)
  | value (v : VmValue)
deriving DecidableEq, Repr

/-- source: `fn interpret` (bytecode_vm.rs lines 705-721): compile under the
entry name `"main"`, find its handle, and run. -/
def interpret (cfuel vfuel : Nat) (ast : SExpr) : RunResult :=
  match compile_bytecode cfuel ast "main" with
  | .error e => .compileError e
  | .ok (bytecode, info) =>
    match info.findIdx? (fun i => i.name = "main") with
    | none => .runtimeError (.Err "panic: entry function not found")
    | some entry =>
      match interpret_bytecode vfuel bytecode info entry with
      | .error e => .runtimeError e
      | .ok v => .value v

/-! ### C3: short-circuit evaluation, and C10: float array indices -/

def mkTree (s : String) (cs : List SExpr) : SExpr := .mk (.Tree s) cs 0

def mkSym (s : String) : SExpr := .mk (.Symbol s) [] 0

def mkF (q : ℚ) : SExpr := .mk (.LitFloat q) [] 0

def mkB (b : Bool) : SExpr := .mk (.LitBool b) [] 0

/-- The repository test `test_and_or`'s program
`let a = 0; false && { a = 1; true }; a` (legacy/compiler/tests.rs lines
43-47), whose expected result is `0.0` ("Make sure they terminate early"). -/
def andProgram : SExpr :=
  mkTree "block" [
    mkTree "let" [mkSym "a", mkF 0],
    mkTree "call" [mkSym "&&", mkB false,
      mkTree "block" [mkTree "=" [mkSym "=", mkSym "a", mkF 1], mkB true]],
    mkSym "a"]

/-- The companion program `let a = 0; true || { a = 1; true }; a`, expected
`0.0` by the same test. -/
def orProgram : SExpr :=
  mkTree "block" [
    mkTree "let" [mkSym "a", mkF 0],
    mkTree "call" [mkSym "||", mkB true,
      mkTree "block" [mkTree "=" [mkSym "=", mkSym "a", mkF 1], mkB true]],
    mkSym "a"]

/-- `false && { a = 1; true }` in value position:
`let a = 0; let b = false && { a = 1; true }; a`. -/
def andValueProgram : SExpr :=
  mkTree "block" [
    mkTree "let" [mkSym "a", mkF 0],
    mkTree "let" [mkSym "b",
      mkTree "call" [mkSym "&&", mkB false,
        mkTree "block" [mkTree "=" [mkSym "=", mkSym "a", mkF 1], mkB true]]],
    mkSym "a"]

/-- C3: the boolean operators are ordinary eager opcodes, not conditional
jumps.  Compiling `false && {a = 1; true}` in value position emits the
side-effecting assignment inline followed by a `BinaryOperator "&&"` — no
`Jump`/`JumpIfFalse` anywhere — and executing each of the repository's own
short-circuit test programs yields `1.0`: the side effect `a = 1` runs even
though the left operand is `false` (resp. `true` for `||`), where the test
and the spec demand `0.0`. -/
theorem short_circuit_violated :
    compile_bytecode 20 andValueProgram "main" =
      .ok ([[.Push (.Float 0), .SetVar 0, .Push (.Bool false),
             .Push (.Float 1), .SetVar 0, .Push (.Bool true),
             .BinaryOperator "&&", .SetVar 1, .PushVar 0]],
           [{ name := "main", arguments := [], locals := 2 }]) ∧
    interpret 20 20 andValueProgram = .value (.Float 1) ∧
    interpret 20 20 andProgram = .value (.Float 1) ∧
    interpret 20 20 orProgram = .value (.Float 1) ∧
    (1 : ℚ) ≠ 0 := by
  refine ⟨by rfl, by decide, by decide, by decide, by norm_num⟩

/-- A three-element array literal `[10, 20, 30]`. -/
def array3 : SExpr := mkTree "literal_array" [mkF 10, mkF 20, mkF 30]

/-- C10: array indices are floats truncated toward zero before the bounds
check.  `array_index` fails exactly when the index is negative or its
truncation reaches the length; the truncation is the floor for non-negative
indices; and through the full pipeline a fractional in-range index such as
`2.9` on a 3-element array reads (and `SetArrayIndex` writes) element 2,
while `3.0` and `-0.5` raise the out-of-bounds runtime error. -/
theorem array_index_truncates :
    (∀ (a : List VmValue) (f : ℚ),
      array_index a f = .error (.Err "index out of bounds error") ↔
        (f < 0 ∨ a.length ≤ floatAsUsize f)) ∧
    (∀ (a : List VmValue) (f : ℚ) (i : Nat),
      array_index a f = .ok i → i = floatAsUsize f) ∧
    (∀ q : ℚ, 0 ≤ q →
      ((floatAsUsize q : ℚ) ≤ q ∧ q < (floatAsUsize q : ℚ) + 1)) ∧
    interpret 20 20 (mkTree "index" [array3, mkF (mkRat 29 10)]) =
      .value (.Float 30) ∧
    interpret 20 20 (mkTree "block" [
        mkTree "let" [mkSym "x", array3],
        mkTree "=" [mkSym "=", mkTree "index" [mkSym "x", mkF (mkRat 29 10)], mkF 99],
        mkTree "index" [mkSym "x", mkF 2]]) = .value (.Float 99) ∧
    interpret 20 20 (mkTree "index" [array3, mkF 3]) =
      .runtimeError (.Err "index out of bounds error") ∧
    interpret 20 20 (mkTree "index" [array3, mkF (mkRat (-1) 2)]) =
      .runtimeError (.Err "index out of bounds error") := by
  refine ⟨?_, ?_, ?_, by decide, by decide, by decide, by decide⟩
  · intro a f
    unfold array_index
    dsimp only
    split_ifs with h
    · refine iff_of_false (by simp) ?_
      push_neg
      exact ⟨h.1, h.2⟩
    · refine iff_of_true rfl ?_
      rcases not_and_or.mp h with h' | h'
      · exact Or.inl (not_le.mp h')
      · exact Or.inr (not_lt.mp h')
  · intro a f i h
    unfold array_index at h
    dsimp only at h
    split_ifs at h
    · exact (Except.ok.inj h).symm
  · intro q hq
    unfold floatAsUsize
    rw [if_neg (not_lt.mpr hq)]
    have hfl : ((⌊q⌋.toNat : ℤ) : ℚ) = ((⌊q⌋ : ℤ) : ℚ) := by
      rw [Int.toNat_of_nonneg (Int.floor_nonneg.mpr hq)]
    constructor
    · calc ((⌊q⌋.toNat : ℚ)) = ((⌊q⌋ : ℤ) : ℚ) := by push_cast [← hfl]; norm_cast
        _ ≤ q := Int.floor_le q
    · have h2 := Int.lt_floor_add_one q
      calc q < ((⌊q⌋ : ℤ) : ℚ) + 1 := h2
        _ = ((⌊q⌋.toNat : ℚ)) + 1 := by rw [← hfl]; norm_cast

/-- Witness for `array_index_truncates`: its hypotheses discharged at the
concrete fractional index `29/10` and a concrete successful lookup. -/
theorem array_index_truncates_witness :
    ((2 : Nat) = floatAsUsize (mkRat 29 10)) ∧
    ((floatAsUsize (mkRat 29 10) : ℚ) ≤ mkRat 29 10 ∧
      (mkRat 29 10 : ℚ) < (floatAsUsize (mkRat 29 10) : ℚ) + 1) :=
  ⟨array_index_truncates.2.1 [.Float 10, .Float 20, .Float 30] (mkRat 29 10) 2
     (by rfl),
   array_index_truncates.2.2.1 (mkRat 29 10) (by norm_num)⟩

end BVM

namespace LEG

/-!
## Embedding of `src/compiler/legacy/compiler/bytecode_compile.rs`

The legacy bytecode compiler.  Its `Value`, `FunctionType` and
`IntrinsicDef` types come from `value.rs`/`intrinsics.rs`, which are not
under src/; they are modelled from the spec and from this file's use sites
(only the variants and fields the compiler touches).  The auxiliary
structures `VarScope`, `LabelState` and `StructDef` are identical to those
of `bytecode_vm.rs` and are reused from the `BVM` namespace.
-/

open BVM in
/-- Modelled from the spec: `FunctionType` from value.rs (not under src/),
as used by `CallFunction` and `get_callable`: a handle is either a
user-defined function or an intrinsic. -/
inductive FunctionType where
  | Function
  | Intrinsic
deriving DecidableEq, Repr

/-- Modelled from the spec: the `Value` variants of value.rs (not under
src/) that `compile` pushes: unit, float, bool, string, and first-class
function handles. -/
inductive LValue where
  | Unit
  | Float (q : ℚ)
  | Bool (b : Bool)
  | String (s : String)
  | Function (t : FunctionType) (handle : Nat)
deriving DecidableEq, Repr

/-- Modelled from the spec: the legacy `Type` of value.rs (not under src/),
used by the compiler only through `type_info != Type::Unit`; the spec
describes unit, float, bool, string, array and function types. -/
inductive VType where
  | Unit
  | Float
  | Bool
  | String
  | Array
  | Function
deriving DecidableEq, Repr

/-- Modelled from the spec: `IntrinsicDef` from intrinsics.rs (not under
src/); the compiler reads only its `handle` (and its name as map key). -/
structure IntrinsicDef where
  name : String
  handle : Nat
deriving DecidableEq, Repr

/-- source: `enum BytecodeInstruction` (bytecode_compile.rs lines 12-31).
Unlike the `bytecode_vm.rs` instruction set, calls carry a `FunctionType`,
and `CallFirstClassFunction`/`Return` exist. -/
inductive LBC where
  | Push (v : LValue)
  | PushVar (slot : Nat)
  | Pop
  | NewArray (n : Nat)
  | NewStruct (sdef : BVM.StructDef)
  | StructFieldInit (i : Nat)
  | PushStructField (name : String)
  | SetStructField (name : String)
  | ArrayIndex
  | SetArrayIndex
  | SetVar (slot : Nat)
  | CallFunction (t : FunctionType) (handle : Nat)
  | CallFirstClassFunction
  | JumpIfFalse (target : Nat)
  | Jump (target : Nat)
  | BinaryOperator (op : String)
  | UnaryOperator (op : String)
  | Return
deriving DecidableEq, Repr

/-- source: `struct FunctionInfo` (bytecode_compile.rs lines 44-52). -/
structure LFunctionInfo where
  name : String
  arguments : List String
  locals : Nat
deriving DecidableEq, Repr

/-- source: `struct FunctionDef` (bytecode_compile.rs lines 75-79). -/
structure LFunctionDef where
  handle : Nat
  bytecode : List LBC
  info : LFunctionInfo
deriving DecidableEq, Repr

/-- source: `struct Callable` (bytecode_compile.rs lines 70-73). -/
structure Callable where
  t : FunctionType
  handle : Nat
deriving DecidableEq, Repr

/-- source: `struct BytecodeProgram` (bytecode_compile.rs lines 54-58). -/
structure BytecodeProgram where
  bytecode : List (List LBC)
  function_info : List LFunctionInfo
  intrinsic_info : List IntrinsicDef
deriving DecidableEq, Repr

/-- source: the legacy `ExprTag` from value.rs (parser-facing; not under
src/), as dispatched on by `compile` (bytecode_compile.rs lines 524-561):
trees, symbols, and string/float/bool literals. -/
inductive LTag where
  | Tree (s : String)
  | Symbol (s : String)
  | LitString (s : String)
  | LitFloat (q : ℚ)
  | LitBool (b : Bool)
deriving DecidableEq, Repr

/-- source: the legacy `Expr` from value.rs (not under src/): a tagged tree
with children, a location, and the `type_info` assigned by the legacy
typechecker (read by `compile_function` only). -/
inductive LExpr where
  | mk (tag : LTag) (children : List LExpr) (loc : Nat) (type_info : VType)
deriving Repr

def LExpr.tag : LExpr → LTag
  | .mk t _ _ _ => t

def LExpr.children : LExpr → List LExpr
  | .mk _ c _ _ => c

def LExpr.loc : LExpr → Nat
  | .mk _ _ l _ => l

def LExpr.type_info : LExpr → VType
  | .mk _ _ _ ti => ti

/-- `Expr::tree_symbol_unwrap` as used at bytecode_compile.rs line 314. -/
def LExpr.tree_symbol_unwrap (e : LExpr) : Except BVM.CErr String :=
  match e.tag with
  | .Tree s => .ok s
  | _ => .error (.Err e.loc "expected tree")

/-- `Expr::symbol_unwrap` / `symbol_to_refstr`: both succeed exactly on
symbol nodes and are interchangeable here (one returns a borrowed, the
other an owned string). -/
def LExpr.symbol_unwrap (e : LExpr) : Except BVM.CErr String :=
  match e.tag with
  | .Symbol s => .ok s
  | _ => .error (.Err e.loc "expected symbol")

/-- source: `struct Environment` (bytecode_compile.rs lines 91-118).  The
`&mut` maps for functions and structs are threaded by value; the
`symbol_cache` interner is the identity on strings and is dropped. -/
structure LEnv where
  functions : List (String × LFunctionDef)
  intrinsics : List (String × IntrinsicDef)
  structs : List (String × BVM.StructDef)
  function_name : String
  arguments : List String
  locals : List BVM.VarScope
  labels : List (String × BVM.LabelState)
  max_locals : Nat
  instructions : List LBC
  loop_break_labels : List String
deriving Repr

/-- source: `Environment::new` (bytecode_compile.rs lines 121-140). -/
def LEnv.new (function_name : String) (arguments : List String)
    (functions : List (String × LFunctionDef))
    (intrinsics : List (String × IntrinsicDef))
    (structs : List (String × BVM.StructDef)) : LEnv :=
  { functions := functions, intrinsics := intrinsics, structs := structs,
    function_name := function_name, arguments := arguments,
    locals := [{ base_index := 0, vars := arguments }],
    labels := [], max_locals := 0, instructions := [],
    loop_break_labels := [] }

/-- source: `Environment::count_locals` (bytecode_compile.rs lines
227-235). -/
def LEnv.count_locals (env : LEnv) : Nat :=
  match env.locals.getLast? with
  | none => 0
  | some vs => vs.base_index + vs.vars.length

/-- source: `Environment::get_var_offset` (bytecode_compile.rs lines
237-246): scopes from innermost to outermost, most recent binding first. -/
def LEnv.get_var_offset (env : LEnv) (v : String) : Option Nat :=
  BVM.findVarInScopes v env.locals.reverse

/-- source: `Environment::get_callable` (bytecode_compile.rs lines
253-261): user functions shadow intrinsics. -/
def LEnv.get_callable (env : LEnv) (name : String) : Option Callable :=
  match BVM.lookupS env.functions name with
  | some f => some { t := .Function, handle := f.handle }
  | none =>
    (BVM.lookupS env.intrinsics name).map
      (fun i => { t := .Intrinsic, handle := i.handle })

/-- source: `Environment::emit` (bytecode_compile.rs lines 162-166). -/
def LEnv.emit (env : LEnv) (instruction : LBC) (do_emit : Bool) : LEnv :=
  if do_emit then { env with instructions := env.instructions ++ [instruction] }
  else env

/-- source: `Environment::emit_always` (bytecode_compile.rs lines
168-170). -/
def LEnv.emit_always (env : LEnv) (instruction : LBC) : LEnv :=
  { env with instructions := env.instructions ++ [instruction] }

/-- source: `Environment::emit_label` (bytecode_compile.rs lines 172-179):
resolve the label to the current instruction index.  The source `panic!`s
when a label is resolved twice; the compiler resolves each generated label
once, and the embedding performs the update unconditionally. -/
def LEnv.emit_label (env : LEnv) (label : String) : LEnv :=
  let f : String × BVM.LabelState → String × BVM.LabelState := fun p =>
    if p.1 = label then (p.1, { p.2 with location := env.instructions.length })
    else p
  { env with labels := env.labels.map f }

/-- source: `Environment::emit_jump` (bytecode_compile.rs lines 181-185). -/
def LEnv.emit_jump (env : LEnv) (label : String) : LEnv :=
  let f : String × BVM.LabelState → String × BVM.LabelState := fun p =>
    if p.1 = label then
      (p.1, { p.2 with references := p.2.references ++ [env.instructions.length] })
    else p
  let env' := { env with labels := env.labels.map f }
  env'.emit_always (.Jump BVM.USIZE_MAX)

/-- source: `Environment::emit_jump_if_false` (bytecode_compile.rs lines
187-191). -/
def LEnv.emit_jump_if_false (env : LEnv) (label : String) : LEnv :=
  let f : String × BVM.LabelState → String × BVM.LabelState := fun p =>
    if p.1 = label then
      (p.1, { p.2 with references := p.2.references ++ [env.instructions.length] })
    else p
  let env' := { env with labels := env.labels.map f }
  env'.emit_always (.JumpIfFalse BVM.USIZE_MAX)

/-- source: `Environment::label` (bytecode_compile.rs lines 193-207): first
fresh suffix; at most `labels.length` candidates collide, so the first
fresh index is found within `labels.length + 1` tries (the fallback is
unreachable). -/
def LEnv.label (env : LEnv) (s : String) : String × LEnv :=
  let name :=
    match (List.range (env.labels.length + 1)).find?
        (fun i => (BVM.lookupS env.labels (s ++ "_" ++ toString i)).isNone) with
    | some i => s ++ "_" ++ toString i
    | none => s ++ "_0"
  (name, { env with labels :=
    env.labels ++ [(name, { location := BVM.USIZE_MAX, references := [] })] })

/-- source: `Environment::push_scope` (bytecode_compile.rs lines
209-211). -/
def LEnv.push_scope (env : LEnv) (v : BVM.VarScope) : LEnv :=
  { env with locals := env.locals ++ [v] }

/-- source: `Environment::pop_scope` (bytecode_compile.rs lines 213-219):
record the maximum visible local count, then drop the innermost scope. -/
def LEnv.pop_scope (env : LEnv) : LEnv :=
  let new_local_count := env.count_locals
  let env :=
    if new_local_count > env.max_locals then
      { env with max_locals := new_local_count }
    else env
  { env with locals := env.locals.dropLast }

/-- source: `Environment::allocate_var_offset` (bytecode_compile.rs lines
221-225): `locals.last_mut().unwrap()` never fails because the scope stack
is never empty at the call sites. -/
def LEnv.allocate_var_offset (env : LEnv) (name : String) : Nat × LEnv :=
  let offset := env.count_locals
  let newLast : List BVM.VarScope :=
    match env.locals.getLast? with
    | some vs => [{ vs with vars := vs.vars ++ [name] }]
    | none => []
  (offset, { env with locals := env.locals.dropLast ++ newLast })

/-- The jump-patching loop of `Environment::complete` (bytecode_compile.rs
lines 144-153).  Each instruction index is referenced by at most one label,
so the map iteration order is immaterial; insertion order is used.  The
source `panic!`s when a patched slot is not a jump; that slot always holds
the placeholder jump, and the embedding leaves foreign instructions
unchanged. -/
def legPatchJumps (instructions : List LBC)
    (labels : List (String × BVM.LabelState)) : List LBC :=
  labels.foldl (fun ins p =>
    p.2.references.foldl (fun ins r =>
      match ins.get? r with
      | some (.Jump _) => ins.set r (.Jump p.2.location)
      | some (.JumpIfFalse _) => ins.set r (.JumpIfFalse p.2.location)
      | _ => ins) ins) instructions

/-- source: `Environment::complete` (bytecode_compile.rs lines 142-160):
patch the jumps and register the finished function under the next handle
(`functions.len()`). -/
def LEnv.complete (env : LEnv) : List (String × LFunctionDef) :=
  let instructions := legPatchJumps env.instructions env.labels
  BVM.insertS env.functions env.function_name
    { handle := env.functions.length, bytecode := instructions,
      info := { name := env.function_name, arguments := env.arguments,
                locals := env.max_locals } }

/-- The nested `does_not_push` of `compile_tree` (bytecode_compile.rs lines
304-312): in value position a void instruction is an error naming the
instruction (the source quotes the name; quotes are elided here). -/
def leg_does_not_push (e : LExpr) (push_answer : Bool) :
    Except BVM.CErr Unit :=
  if push_answer then
    match e.tag with
    | .Tree instr =>
      .error (.Err e.loc
        ("instruction " ++ instr ++ " is void, where a result is expected"))
    | _ => .error (.Err e.loc "expected tree")
  else .ok ()

/-- The field-name collection of the `struct_define` arm (bytecode_compile.rs
lines 436-438): `.tuples()` pairs the field exprs and keeps the first of
each pair, silently dropping an unpaired final element. -/
def legCollectFieldNames : List LExpr → Except BVM.CErr (List String)
  | [] => .ok []
  | [_] => .ok []
  | e :: _ :: rest => do
    let n ← e.symbol_unwrap
    let ns ← legCollectFieldNames rest
    .ok (n :: ns)

/-- The parameter collection of the `fun` arm (bytecode_compile.rs lines
493-496): same `.tuples()` pairing over the argument exprs. -/
def legCollectParams : List LExpr → Except BVM.CErr (List String)
  | [] => .ok []
  | [_] => .ok []
  | e :: _ :: rest => do
    let n ← e.symbol_unwrap
    let ns ← legCollectParams rest
    .ok (n :: ns)

set_option maxHeartbeats 1600000

mutual

/-- source: `fn compile` (bytecode_compile.rs lines 523-564). -/
def compile : Nat → LExpr → LEnv → Bool → Except BVM.CErr LEnv
  | 0, _, _, _ => .error .OutOfFuel
  | fuel + 1, e, env, push_answer =>
    match e.tag with
    | .Tree _ => compile_tree fuel e env push_answer
    | .Symbol s =>
      if s = "break" then
        match env.loop_break_labels.getLast? with
        | some l => .ok (env.emit_jump l)
        | none => .error (.Err e.loc "cant break outside a loop")
      else
        match env.get_var_offset s with
        | some offset => .ok (env.emit (.PushVar offset) push_answer)
        | none =>
          match env.get_callable s with
          | some c =>
            .ok (env.emit (.Push (.Function c.t c.handle)) push_answer)
          | none =>
            .error (.Err e.loc
              ("no variable or function in scope called " ++ s))
    | .LitString s => .ok (env.emit (.Push (.String s)) push_answer)
    | .LitFloat f => .ok (env.emit (.Push (.Float f)) push_answer)
    | .LitBool b => .ok (env.emit (.Push (.Bool b)) push_answer)

/-- source: `fn compile_function_call` (bytecode_compile.rs lines 264-301):
a symbol naming no local variable but a known callable compiles to a direct
call; anything else is evaluated as a first-class function value, spilled
to a scratch variable when arguments follow. -/
def compile_function_call : Nat → LExpr → List LExpr → LEnv → Bool →
    Except BVM.CErr LEnv
  | 0, _, _, _, _ => .error .OutOfFuel
  | fuel + 1, function_expr, args, env, push_answer =>
    let handle : Option Callable :=
      match function_expr.tag with
      | .Symbol f =>
        if (env.get_var_offset f).isNone then env.get_callable f else none
      | _ => none
    match handle with
    | some h => do
      let env ← compile_args fuel args env
      let env := env.emit_always (.CallFunction h.t h.handle)
      if !push_answer then .ok (env.emit_always .Pop) else .ok env
    | none => do
      let env ← compile fuel function_expr env true
      let env ←
        if args.length > 0 then do
          let env := env.push_scope
            { base_index := env.count_locals, vars := [] }
          let r := env.allocate_var_offset "[function_var]"
          let env := r.2.emit_always (.SetVar r.1)
          let env ← compile_args fuel args env
          let env := env.emit_always (.PushVar r.1)
          .ok env.pop_scope
        else .ok env
      let env := env.emit_always .CallFirstClassFunction
      if !push_answer then .ok (env.emit_always .Pop) else .ok env

/-- The `for i in 0..args.len()` loops of `compile_function_call`: each
argument compiles in value position. -/
def compile_args : Nat → List LExpr → LEnv → Except BVM.CErr LEnv
  | 0, _, _ => .error .OutOfFuel
  | _ + 1, [], env => .ok env
  | fuel + 1, a :: rest, env => do
    let env ← compile fuel a env true
    compile_args fuel rest env

/-- The child loop of the `block` arm (bytecode_compile.rs lines 344-355):
all but the last child compile in statement position; an empty block is
void, so in value position it is rejected through `does_not_push` (the
parent expression `e` supplies the error location). -/
def compile_block : Nat → LExpr → List LExpr → LEnv → Bool →
    Except BVM.CErr LEnv
  | 0, _, _, _, _ => .error .OutOfFuel
  | _ + 1, e, [], env, push_answer => do
    let _ ← leg_does_not_push e push_answer
    .ok env
  | fuel + 1, _, [x], env, push_answer => compile fuel x env push_answer
  | fuel + 1, e, x :: rest, env, push_answer => do
    let env ← compile fuel x env false
    compile_block fuel e rest env push_answer

/-- The `(field, value)` pair loop of the `struct_instantiate` arm
(bytecode_compile.rs lines 456-462); `.tuples()` silently drops an unpaired
final element.  The missing-field error message interpolates the struct
name, not the field name, exactly as the source does. -/
def compile_struct_fields : Nat → List LExpr → LEnv → Bool →
    List (String × Nat) → String →
    Except BVM.CErr (LEnv × List (String × Nat))
  | 0, _, _, _, _, _ => .error .OutOfFuel
  | _ + 1, [], env, _, index_map, _ => .ok (env, index_map)
  | _ + 1, [_], env, _, index_map, _ => .ok (env, index_map)
  | fuel + 1, fexpr :: vexpr :: rest, env, push_answer, index_map,
      struct_name => do
    let field_name ← fexpr.symbol_unwrap
    let env ← compile fuel vexpr env push_answer
    match BVM.lookupS index_map field_name with
    | none =>
      .error (.Err fexpr.loc ("field " ++ struct_name ++ " does not exist"))
    | some index =>
      let env := env.emit (.StructFieldInit index) push_answer
      compile_struct_fields fuel rest env push_answer
        (index_map.filter (fun p => p.1 ≠ field_name)) struct_name

/-- The element loop of the `literal_array` arm (bytecode_compile.rs lines
499-503): every element inherits the push flag. -/
def compile_each : Nat → List LExpr → LEnv → Bool → Except BVM.CErr LEnv
  | 0, _, _, _ => .error .OutOfFuel
  | _ + 1, [], env, _ => .ok env
  | fuel + 1, a :: rest, env, push_answer => do
    let env ← compile fuel a env push_answer
    compile_each fuel rest env push_answer

/-- source: `fn compile_tree` (bytecode_compile.rs lines 303-520). -/
def compile_tree : Nat → LExpr → LEnv → Bool → Except BVM.CErr LEnv
  | 0, _, _, _ => .error .OutOfFuel
  | fuel + 1, e, env, push_answer => do
  let instr ← e.tree_symbol_unwrap
  match instr, e.children with
  | "call", exprs =>
    match exprs with
    | [] => .error (.Panic "index out of bounds: empty call")
    | function_expr :: params =>
      match function_expr.tag with
      | .Symbol symbol =>
        if BVM.BYTECODE_OPERATORS.contains symbol then
          match params with
          | [a, b] => do
            let env ← compile fuel a env push_answer
            let env ← compile fuel b env push_answer
            .ok (env.emit (.BinaryOperator symbol) push_answer)
          | [v] => do
            let env ← compile fuel v env push_answer
            .ok (env.emit (.UnaryOperator symbol) push_answer)
          | _ => .error (.Err e.loc "wrong number of arguments for operator")
        else compile_function_call fuel function_expr params env push_answer
      | _ => compile_function_call fuel function_expr params env push_answer
  | "block", exprs => do
    let env := env.push_scope { base_index := env.count_locals, vars := [] }
    let env ← compile_block fuel e exprs env push_answer
    .ok env.pop_scope
  | "let", exprs => do
    let _ ← leg_does_not_push e push_answer
    match exprs with
    | e0 :: e1 :: _ => do
      let name ← e0.symbol_unwrap
      let env ← compile fuel e1 env true
      let r := env.allocate_var_offset name
      .ok (r.2.emit_always (.SetVar r.1))
    | _ => .error (.Panic "index out of bounds: malformed let")
  | "=", [_, assign_expr, value_expr] =>
    match assign_expr.tag with
    | .Symbol var_symbol => do
      let _ ← leg_does_not_push e push_answer
      let env ← compile fuel value_expr env true
      match env.get_var_offset var_symbol with
      | some offset => .ok (env.emit_always (.SetVar offset))
      | none =>
        .error (.Err assign_expr.loc
          ("no variable called " ++ var_symbol ++ " found in scope"))
    | .Tree symbol => do
      let _ ← leg_does_not_push e push_answer
      match symbol, assign_expr.children with
      | "index", [array_expr, index_expr] => do
        let env ← compile fuel array_expr env true
        let env ← compile fuel index_expr env true
        let env ← compile fuel value_expr env true
        .ok (env.emit_always .SetArrayIndex)
      | ".", [struct_expr, field_expr] => do
        let env ← compile fuel struct_expr env true
        let env ← compile fuel value_expr env true
        let field_name ← field_expr.symbol_unwrap
        .ok (env.emit_always (.SetStructField field_name))
      | _, _ => .error (.Err assign_expr.loc "cant assign to this")
    | _ => .error (.Err assign_expr.loc "cant assign to this")
  | "if", exprs =>
    if exprs.length < 2 || exprs.length > 3 then
      .error (.Err e.loc "malformed if expression")
    else
      let r := env.label "if_false_label"
      let false_label := r.1
      let env := r.2
      match exprs with
      | [cond, thenb, elseb] => do
        let r2 := env.label "else_end_label"
        let else_end_label := r2.1
        let env := r2.2
        let env ← compile fuel cond env true
        let env := env.emit_jump_if_false false_label
        let env ← compile fuel thenb env push_answer
        let env := env.emit_jump else_end_label
        let env := env.emit_label false_label
        let env ← compile fuel elseb env push_answer
        .ok (env.emit_label else_end_label)
      | [cond, thenb] => do
        let _ ← leg_does_not_push e push_answer
        let env ← compile fuel cond env true
        let env := env.emit_jump_if_false false_label
        let env ← compile fuel thenb env false
        .ok (env.emit_label false_label)
      | _ => .error (.Err e.loc "malformed if expression")
  | "struct_define", exprs =>
    match exprs with
    | [] => .error (.Err e.loc "malformed struct definition")
    | name_expr :: field_exprs => do
      let name ← name_expr.symbol_unwrap
      if (BVM.lookupS env.structs name).isSome then
        .error (.Err name_expr.loc
          ("A struct called " ++ name ++ " has already been defined."))
      else do
        let fields ← legCollectFieldNames field_exprs
        let structs1 := BVM.insertS env.structs name { name := name, fields := fields }
        .ok { env with structs := structs1 }
  | "struct_instantiate", exprs =>
    if exprs.length < 1 || exprs.length % 2 = 0 then
      .error (.Err e.loc "malformed struct instantiation")
    else
      match exprs with
      | [] => .error (.Err e.loc "malformed struct instantiation")
      | name_expr :: field_pairs => do
        let name ← name_expr.symbol_unwrap
        match BVM.lookupS env.structs name with
        | none => .error (.Err name_expr.loc ("struct " ++ name ++ " does not exist"))
        | some sdef => do
          let env := env.emit (.NewStruct sdef) push_answer
          let index_map := ((List.range sdef.fields.length).zip sdef.fields)
            |>.map (fun p => (p.2, p.1))
          let r ← compile_struct_fields fuel field_pairs env push_answer
            index_map name
          if r.2.length > 0 then
            .error (.Err e.loc "Some fields not initialised")
          else .ok r.1
  | ".", [_, sub, field_name] => do
    let env ← compile fuel sub env push_answer
    let name ← field_name.symbol_unwrap
    .ok (env.emit (.PushStructField name) push_answer)
  | "while", exprs => do
    let _ ← leg_does_not_push e push_answer
    if exprs.length ≠ 2 then .error (.Err e.loc "malformed while block")
    else
      match exprs with
      | [cond, body] => do
        let r := env.label "loop_condition"
        let r2 := r.2.label "loop_end"
        let condition_label := r.1
        let end_label := r2.1
        let env := r2.2
        let env := { env with
          loop_break_labels := env.loop_break_labels ++ [end_label] }
        let env := env.emit_label condition_label
        let env ← compile fuel cond env true
        let env := env.emit_jump_if_false end_label
        let env ← compile fuel body env false
        let env := env.emit_jump condition_label
        let env := env.emit_label end_label
        .ok { env with loop_break_labels := env.loop_break_labels.dropLast }
      | _ => .error (.Err e.loc "malformed while block")
  | "fun", exprs =>
    match exprs with
    | e0 :: e1 :: e2 :: _ => do
      let name ← e0.symbol_unwrap
      let params ← legCollectParams e1.children
      let r ← compile_function fuel e2 name params env.functions
        env.intrinsics env.structs
      .ok { env with functions := r.1, structs := r.2 }
    | _ => .error (.Panic "index out of bounds: malformed fun")
  | "literal_array", exprs => do
    let env ← compile_each fuel exprs env push_answer
    .ok (env.emit (.NewArray exprs.length) push_answer)
  | "index", exprs =>
    match exprs with
    | [array_expr, index_expr] => do
      let env ← compile fuel array_expr env push_answer
      let env ← compile fuel index_expr env push_answer
      .ok (env.emit .ArrayIndex push_answer)
    | _ => .error (.Err e.loc "index instruction expected 2 arguments")
  | _, _ => .error (.Err e.loc "instruction is not supported by the interpreter")

/-- source: `fn compile_function` (bytecode_compile.rs lines 566-585): a
fresh environment compiles the body; `push_answer` is true exactly when the
typechecker gave the body a non-unit type; otherwise a unit value is pushed
before `Return`.  Returns the updated function and struct maps. -/
def compile_function : Nat → LExpr → String → List String →
    List (String × LFunctionDef) → List (String × IntrinsicDef) →
    List (String × BVM.StructDef) →
    Except BVM.CErr
      (List (String × LFunctionDef) × List (String × BVM.StructDef))
  | 0, _, _, _, _, _, _ => .error .OutOfFuel
  | fuel + 1, function_body, name, arguments, functions, intrinsics,
      structs => do
    let new_env := LEnv.new name arguments functions intrinsics structs
    let expect_return_value : Bool := function_body.type_info != VType.Unit
    let new_env ← compile fuel function_body new_env expect_return_value
    let new_env :=
      if expect_return_value then new_env
      else new_env.emit_always (.Push .Unit)
    let new_env := new_env.emit_always .Return
    .ok (new_env.complete, new_env.structs)

end

set_option maxHeartbeats 400000

/-- Insertion sort by a numeric key, standing in for
`sort_unstable_by_key`: handles are distinct, so any comparison sort
agrees. -/
def legInsertByKey {α : Type} (key : α → Nat) (d : α) : List α → List α
  | [] => [d]
  | x :: xs => if key d ≤ key x then d :: x :: xs else x :: legInsertByKey key d xs

def legSortByKey {α : Type} (key : α → Nat) : List α → List α
  | [] => []
  | x :: xs => legInsertByKey key x (legSortByKey key xs)

/-- source: `fn compile_to_bytecode` (bytecode_compile.rs lines 587-607):
compile the whole program as the entry function, then lay out functions and
intrinsics by handle. -/
def compile_to_bytecode (fuel : Nat) (expr : LExpr)
    (entry_function_name : String)
    (intrinsics : List (String × IntrinsicDef)) :
    Except BVM.CErr BytecodeProgram := do
  let r ← compile_function fuel expr entry_function_name [] [] intrinsics []
  let intr := legSortByKey (fun i => i.handle) (intrinsics.map Prod.snd)
  let defs := legSortByKey (fun d => d.handle) (r.1.map Prod.snd)
  .ok { bytecode := defs.map (fun d => d.bytecode),
        function_info := defs.map (fun d => d.info),
        intrinsic_info := intr }

/-! ### Claim C1: value-position stack discipline of the legacy compiler -/

def lmkTree (s : String) (ch : List LExpr) : LExpr := .mk (.Tree s) ch 0 .Unit

def lmkSym (s : String) : LExpr := .mk (.Symbol s) [] 0 .Unit

def lmkF (q : ℚ) : LExpr := .mk (.LitFloat q) [] 0 .Float

/-- An empty starting environment for an entry function. -/
def c1Env : LEnv := LEnv.new "main" [] [] [] []

/-- `struct P { x : f64 }` as a `struct_define` node. -/
def structDefineExpr : LExpr :=
  lmkTree "struct_define" [lmkSym "P", lmkSym "x", lmkSym "f64"]

/-- `fun f() { 1.0 }` as a `fun` node. -/
def funDefExpr : LExpr :=
  lmkTree "fun" [lmkSym "f", lmkTree "args" [], lmkF 1]

/-- C1: counterexample.  `struct_define` is a void construct, yet in value
position (`push_answer = true`) the legacy compiler accepts it and emits no
instructions — the emitted sequence grows the stack by zero where the claim
requires one.  Through `let x = { struct_define ... }` the accepted program
compiles to the single instruction `SetVar 0`, whose execution would pop
from an empty operand stack. -/
theorem legacy_void_value_position_counterexample :
    (compile 10 structDefineExpr c1Env true).map
        (fun env => env.instructions) = .ok [] ∧
    (compile 10 (lmkTree "let" [lmkSym "x", lmkTree "block" [structDefineExpr]])
        c1Env false).map (fun env => env.instructions) = .ok [.SetVar 0] :=
  ⟨rfl, rfl⟩

/-- C1 (amended): in value position the legacy compiler rejects `let`,
`while`, assignment, and else-less `if` with a compile error naming the
void instruction — but `struct_define` and `fun` are silently accepted in
value position emitting no instructions (shown here on concrete programs),
so the one-value stack discipline does not hold for every accepted
expression. -/
theorem legacy_value_position_contract :
    (∀ (fuel : Nat) (env : LEnv) (ch : List LExpr) (l : Nat) (ti : VType),
      compile (fuel + 2) (.mk (.Tree "let") ch l ti) env true =
        .error (.Err l "instruction let is void, where a result is expected")) ∧
    (∀ (fuel : Nat) (env : LEnv) (ch : List LExpr) (l : Nat) (ti : VType),
      compile (fuel + 2) (.mk (.Tree "while") ch l ti) env true =
        .error (.Err l "instruction while is void, where a result is expected")) ∧
    (∀ (fuel : Nat) (env : LEnv) (c1 c2 : LExpr) (l : Nat) (ti : VType),
      compile (fuel + 2) (.mk (.Tree "if") [c1, c2] l ti) env true =
        .error (.Err l "instruction if is void, where a result is expected")) ∧
    (∀ (fuel : Nat) (env : LEnv) (a b v : LExpr) (l : Nat) (ti : VType),
      ∃ l2 m, compile (fuel + 2) (.mk (.Tree "=") [a, b, v] l ti) env true =
        .error (.Err l2 m)) ∧
    (compile 10 funDefExpr c1Env true).map
        (fun env => env.instructions) = .ok [] ∧
    (compile 10 structDefineExpr c1Env true).map
        (fun env => env.structs.length) = .ok 1 := by
  refine ⟨?_, ?_, ?_, ?_, rfl, rfl⟩
  · intro fuel env ch l ti
    rfl
  · intro fuel env ch l ti
    rfl
  · intro fuel env c1 c2 l ti
    rfl
  · intro fuel env a b v l ti
    cases b with
    | mk tag bch bl bti =>
      cases tag with
      | Tree s =>
        exact ⟨l, "instruction = is void, where a result is expected", rfl⟩
      | Symbol s =>
        exact ⟨l, "instruction = is void, where a result is expected", rfl⟩
      | LitString s => exact ⟨bl, "cant assign to this", rfl⟩
      | LitFloat q => exact ⟨bl, "cant assign to this", rfl⟩
      | LitBool bb => exact ⟨bl, "cant assign to this", rfl⟩

end LEG

/-!
## Embedding of the intrinsic registries: `base_module`
(inference.rs lines 48-113) and `get_intrinsics` (compile.rs lines 212-302)
-/

/-- The eight primitive number types, in the order both registries
enumerate them (inference.rs lines 50-52, compile.rs lines 263-265). -/
def prim_number_types : List LType :=
  [.Prim .I64, .Prim .I32, .Prim .F32, .Prim .F64,
   .Prim .U64, .Prim .U32, .Prim .U16, .Prim .U8]

/-- source: `fn add_generic_intrinsic` (inference.rs lines 93-113): a fresh
function id from the generator, an intrinsic implementation, inserted into
the module's function map. -/
def add_generic_intrinsic (gen : Nat) (t : TypeInfo) (name : String)
    (args : List LType) (return_type : LType) (generics : List Nat) :
    Nat × TypeInfo :=
  let f : FunctionDefinition :=
    { id := gen, module_id := t.id, name_in_code := name,
      signature := { return_type := return_type, args := args },
      generics := generics, implementation := .Intrinsic, loc := 0 }
  (gen + 1, { t with functions := t.functions ++ [f] })

/-- source: `fn add_intrinsic` (inference.rs lines 86-91). -/
def add_intrinsic (gen : Nat) (t : TypeInfo) (name : String)
    (args : List LType) (return_type : LType) : Nat × TypeInfo :=
  add_generic_intrinsic gen t name args return_type []

/-- The body of base_module's `for &t in prim_number_types` loop
(inference.rs lines 53-63): unary minus, the four arithmetic operators,
and the six comparisons. -/
def addNumericIntrinsics (acc : Nat × TypeInfo) (t : LType) :
    Nat × TypeInfo :=
  let r := add_intrinsic acc.1 acc.2 "-" [t] t
  let r := add_intrinsic r.1 r.2 "+" [t, t] t
  let r := add_intrinsic r.1 r.2 "-" [t, t] t
  let r := add_intrinsic r.1 r.2 "*" [t, t] t
  let r := add_intrinsic r.1 r.2 "/" [t, t] t
  let r := add_intrinsic r.1 r.2 "==" [t, t] (.Prim .Bool)
  let r := add_intrinsic r.1 r.2 ">" [t, t] (.Prim .Bool)
  let r := add_intrinsic r.1 r.2 "<" [t, t] (.Prim .Bool)
  let r := add_intrinsic r.1 r.2 ">=" [t, t] (.Prim .Bool)
  let r := add_intrinsic r.1 r.2 "<=" [t, t] (.Prim .Bool)
  add_intrinsic r.1 r.2 "!=" [t, t] (.Prim .Bool)

/-- source: `fn base_module` (inference.rs lines 48-83): the numeric
intrinsics for the eight number types, then a one-argument pointer `Index`,
dereference `*` and address-of `&` as single-generic functions.  No boolean
operator is registered here. -/
def base_module (gen : Nat) : Nat × TypeInfo :=
  let id := gen
  let ti : TypeInfo := { id := id, type_defs := [], functions := [], globals := [] }
  let r := prim_number_types.foldl addNumericIntrinsics (gen + 1, ti)
  let gid1 := r.1
  let r := add_generic_intrinsic (gid1 + 1) r.2 "Index"
    [.Ptr (.Generic gid1)] (.Generic gid1) [gid1]
  let gid2 := r.1
  let r := add_generic_intrinsic (gid2 + 1) r.2 "*"
    [.Ptr (.Generic gid2)] (.Generic gid2) [gid2]
  let gid3 := r.1
  add_generic_intrinsic (gid3 + 1) r.2 "&"
    [.Generic gid3] (.Ptr (.Generic gid3)) [gid3]

namespace CMP

/-- Modelled from the spec: the `GlobalInit` initialiser kinds of the
types module that compile.rs imports (that snapshot is not under src/);
the spec lists implementations Normal, CBind and Intrinsic, and
`get_intrinsics` uses only `Intrinsic`. -/
inductive GlobalInit where
  | Normal
  | CBind
  | Intrinsic
deriving DecidableEq, Repr

/-- Modelled from the spec: the `GlobalDefinition` of the types-module
snapshot that compile.rs imports (not under src/): like types.rs lines
107-114 but with an `initialiser : GlobalInit` in place of `global_type`. -/
structure CGlobalDefinition where
  module_id : Nat
  name : String
  type_tag : LType
  initialiser : GlobalInit
  loc : Nat
deriving DecidableEq, Repr

/-- Modelled from the spec: `PolyFunctionDef` of the same snapshot — a
polymorphic definition is a global plus its generic signature and ids. -/
structure PolyFunctionDef where
  global : CGlobalDefinition
  poly_signature : FunctionSignature
  generics : List Nat
deriving DecidableEq, Repr

/-- Modelled from the spec: the `TypeInfo` of the same snapshot, with
globals and polymorphic functions as push-ordered lists, restricted to the
fields `get_intrinsics` writes. -/
structure CTypeInfo where
  id : Nat
  globals : List CGlobalDefinition
  poly_functions : List PolyFunctionDef
deriving DecidableEq, Repr

/-- source: nested `fn create_definition` (compile.rs lines 216-234): a
global of function type with an `Intrinsic` initialiser at location zero. -/
def create_definition (id : Nat) (name : String) (args : List LType)
    (return_type : LType) : CGlobalDefinition × FunctionSignature :=
  let sig : FunctionSignature := { return_type := return_type, args := args }
  ({ module_id := id, name := name, type_tag := .Fun args return_type,
     initialiser := .Intrinsic, loc := 0 }, sig)

/-- source: nested `fn add_intrinsic` (compile.rs lines 236-242). -/
def add_intrinsic (id : Nat) (t : CTypeInfo) (name : String)
    (args : List LType) (return_type : LType) : CTypeInfo :=
  { t with globals := t.globals ++ [(create_definition id name args return_type).1] }

/-- source: nested `fn add_generic_intrinsic` (compile.rs lines 244-255). -/
def add_generic_intrinsic (id : Nat) (t : CTypeInfo) (name : String)
    (args : List LType) (return_type : LType) (generics : List Nat) :
    CTypeInfo :=
  let r := create_definition id name args return_type
  { t with poly_functions := t.poly_functions ++
      [{ global := r.1, poly_signature := r.2, generics := generics }] }

/-- The body of get_intrinsics' `for &t in prim_number_types` loop
(compile.rs lines 266-276), identical in shape to base_module's. -/
def numericOps (id : Nat) (ti : CTypeInfo) (t : LType) : CTypeInfo :=
  let ti := add_intrinsic id ti "-" [t] t
  let ti := add_intrinsic id ti "+" [t, t] t
  let ti := add_intrinsic id ti "-" [t, t] t
  let ti := add_intrinsic id ti "*" [t, t] t
  let ti := add_intrinsic id ti "/" [t, t] t
  let ti := add_intrinsic id ti "==" [t, t] (.Prim .Bool)
  let ti := add_intrinsic id ti ">" [t, t] (.Prim .Bool)
  let ti := add_intrinsic id ti "<" [t, t] (.Prim .Bool)
  let ti := add_intrinsic id ti ">=" [t, t] (.Prim .Bool)
  let ti := add_intrinsic id ti "<=" [t, t] (.Prim .Bool)
  add_intrinsic id ti "!=" [t, t] (.Prim .Bool)

/-- source: `fn get_intrinsics` (compile.rs lines 212-302), the registry
part: numeric intrinsics, eager boolean `&&` and `||` over `(Bool, Bool) →
Bool`, four generic `Index` forms over `ptr`/`array` with `i64`/`u64`
indices, then dereference and address-of.  No `!` is registered. -/
def get_intrinsics (gen : Nat) : Nat × CTypeInfo :=
  let id := gen
  let gen := gen + 1
  let ti : CTypeInfo := { id := id, globals := [], poly_functions := [] }
  let ti := prim_number_types.foldl (numericOps id) ti
  let ti := add_intrinsic id ti "&&" [.Prim .Bool, .Prim .Bool] (.Prim .Bool)
  let ti := add_intrinsic id ti "||" [.Prim .Bool, .Prim .Bool] (.Prim .Bool)
  let ti := add_generic_intrinsic id ti "Index"
    [.Ptr (.Generic gen), .Prim .I64] (.Generic gen) [gen]
  let ti := add_generic_intrinsic id ti "Index"
    [.Array (.Generic (gen + 1)), .Prim .I64] (.Generic (gen + 1)) [gen + 1]
  let ti := add_generic_intrinsic id ti "Index"
    [.Ptr (.Generic (gen + 2)), .Prim .U64] (.Generic (gen + 2)) [gen + 2]
  let ti := add_generic_intrinsic id ti "Index"
    [.Array (.Generic (gen + 3)), .Prim .U64] (.Generic (gen + 3)) [gen + 3]
  let ti := add_generic_intrinsic id ti "*"
    [.Ptr (.Generic (gen + 4))] (.Generic (gen + 4)) [gen + 4]
  let ti := add_generic_intrinsic id ti "&"
    [.Generic (gen + 5)] (.Ptr (.Generic (gen + 5))) [gen + 5]
  (gen + 6, ti)

end CMP

set_option maxHeartbeats 1600000

/-- C9: counterexample.  The unary boolean operator `!` is registered
nowhere: neither among the globals nor the polymorphic functions of
`get_intrinsics`, nor in `base_module` — and `base_module` registers no
boolean operator at all, `&&` and `||` included. -/
theorem intrinsics_no_bang_counterexample :
    ((CMP.get_intrinsics 0).2.globals.map (fun g => g.name)).contains "!" = false ∧
    ((CMP.get_intrinsics 0).2.poly_functions.map (fun p => p.global.name)).contains "!" = false ∧
    ((base_module 0).2.functions.map (fun f => f.name_in_code)).contains "!" = false ∧
    ((base_module 0).2.functions.map (fun f => f.name_in_code)).contains "&&" = false ∧
    ((base_module 0).2.functions.map (fun f => f.name_in_code)).contains "||" = false := by
  refine ⟨by decide, by decide, by decide, by decide, by decide⟩

/-- C9 (amended): the preloaded `get_intrinsics` registry holds binary
`&&` and `||` as globals of type `(Bool, Bool) → Bool` — but no `!`, in
either registry, and `base_module` registers no boolean operator. -/
theorem boolean_intrinsics_registry :
    (((CMP.get_intrinsics 0).2.globals.find? (fun g => g.name = "&&")).map
        (fun g => g.type_tag)
      = some (.Fun [.Prim .Bool, .Prim .Bool] (.Prim .Bool))) ∧
    (((CMP.get_intrinsics 0).2.globals.find? (fun g => g.name = "||")).map
        (fun g => g.type_tag)
      = some (.Fun [.Prim .Bool, .Prim .Bool] (.Prim .Bool))) ∧
    ((CMP.get_intrinsics 0).2.globals.filter (fun g => g.name = "!")) = [] ∧
    ((CMP.get_intrinsics 0).2.poly_functions.filter
        (fun p => p.global.name = "!")) = [] ∧
    ((base_module 0).2.functions.map (fun f => f.name_in_code)).filter
        (fun n => n = "&&" || n = "||" || n = "!") = [] := by
  refine ⟨by decide, by decide, by decide, by decide, by decide⟩

set_option maxHeartbeats 400000

/-!
## Claim C5: codegen dependency ordering (`Compiler::codegen`,
compiler.rs lines 199-260)

The import-edge graph over the new units is built exactly as in the source.
The graph algorithms live in graph.rs, which is not under src/; they are
modelled from the spec as predicates (a partition into components and a
dependency-first ordering of the condensation), and the ordering property
of the codegen loop is proved for every partition and ordering satisfying
them.
-/

/-- The `iter().position(...)` search: index of the first element
satisfying the predicate. -/
def listPosition {α : Type} (p : α → Bool) : List α → Option Nat
  | [] => none
  | x :: xs => if p x then some 0 else (listPosition p xs).map (fun i => i + 1)

theorem listPosition_lt {α : Type} (p : α → Bool) :
    ∀ (l : List α) (i : Nat), listPosition p l = some i → i < l.length := by
  intro l
  induction l with
  | nil => intro i h; simp [listPosition] at h
  | cons x xs ih =>
    intro i h
    unfold listPosition at h
    split_ifs at h with hpx
    · cases h
      simp
    · obtain ⟨j, hj, rfl⟩ := Option.map_eq_some'.mp h
      have := ih j hj
      simp
      omega

/-- source: the graph-building loop of `Compiler::codegen` (compiler.rs
lines 210-219): one vertex per new unit in order, an edge to position `w`
for every import that is itself among the new units
(`new_units.iter().position(...)`).  The code store's import map (in
code_store.rs, not under src/) is passed as the function `imports`. -/
def buildVertexEdges (imports : Nat → List Nat) (new_units : List Nat) :
    List (List Nat) :=
  new_units.map (fun uid =>
    (imports uid).filterMap (fun d => listPosition (fun id => id = d) new_units))

/-- Vertex `v` lies in component `c` of the partition `comps`. -/
def VertexIn (comps : List (List Nat)) (c v : Nat) : Prop :=
  v ∈ comps.getD c []

/-- Vertex `a` has an edge to vertex `b` in graph `g`. -/
def HasEdge (g : List (List Nat)) (a b : Nat) : Prop :=
  b ∈ g.getD a []

instance (comps : List (List Nat)) (c v : Nat) : Decidable (VertexIn comps c v) :=
  inferInstanceAs (Decidable (v ∈ comps.getD c []))

instance (g : List (List Nat)) (a b : Nat) : Decidable (HasEdge g a b) :=
  inferInstanceAs (Decidable (b ∈ g.getD a []))

/-- Modelled from the spec: `get_strongly_connected_components` (graph.rs,
not under src/) partitions the vertices — every vertex lies in exactly one
listed component.  (Strong connectivity inside a component is not needed
for the ordering claim.) -/
def IsComponentPartition (g : List (List Nat))
    (comps : List (List Nat)) : Prop :=
  ∀ v, v < g.length →
    ∃ c, VertexIn comps c v ∧ ∀ c2, VertexIn comps c2 v → c2 = c

/-- An edge of the condensation: two distinct components joined by an edge
of `g` (source: `graph_of_disjoint_subgraphs`, graph.rs, not under
src/). -/
def CondensationEdge (g : List (List Nat)) (comps : List (List Nat))
    (x y : Nat) : Prop :=
  x ≠ y ∧ ∃ a b, VertexIn comps x a ∧ VertexIn comps y b ∧ HasEdge g a b

/-- Modelled from the spec: `valid_topological_ordering` (graph.rs, not
under src/) lists every component exactly once, dependencies first: the
target of every condensation edge appears strictly earlier than its
source.  The codegen loop hands component `comps[ord[k]]` to the backend at
step `k`, so list position in `ord` is hand-over time. -/
def IsTopologicalOrdering (g : List (List Nat)) (comps : List (List Nat))
    (ord : List Nat) : Prop :=
  ord.Nodup ∧ (∀ c, c < comps.length → c ∈ ord) ∧
  ∀ x y, CondensationEdge g comps x y → ord.indexOf y < ord.indexOf x

/-- A member of a `getD` lookup is a member of some listed entry. -/
theorem mem_getD_mem {l : List (List Nat)} {a b : Nat}
    (h : b ∈ l.getD a []) : ∃ es ∈ l, b ∈ es := by
  rcases h' : l[a]? with _ | es
  · rw [List.getD_eq_getElem?_getD, h'] at h
    simp at h
  · rw [List.getD_eq_getElem?_getD, h'] at h
    simp only [Option.getD_some] at h
    exact ⟨es, List.getElem?_mem h', h⟩

/-- Edges produced by `buildVertexEdges` only target valid vertex
positions. -/
theorem buildVertexEdges_target_lt (imports : Nat → List Nat)
    (new_units : List Nat) (a b : Nat)
    (h : HasEdge (buildVertexEdges imports new_units) a b) :
    b < new_units.length := by
  unfold HasEdge at h
  obtain ⟨es, hes, hb⟩ := mem_getD_mem h
  unfold buildVertexEdges at hes
  obtain ⟨uid, _, rfl⟩ := List.mem_map.mp hes
  obtain ⟨d, _, hpos⟩ := List.mem_filterMap.mp hb
  exact listPosition_lt _ _ _ hpos

/-- C5: if new unit `a` imports new unit `b` (an edge of the graph the
source builds), then for any component partition and any dependency-first
ordering of its condensation, `a` and `b` share a codegen group, or `b`'s
group is handed to the backend strictly earlier than `a`'s. -/
theorem codegen_dependency_ordering (imports : Nat → List Nat)
    (new_units : List Nat) (comps : List (List Nat)) (ord : List Nat)
    (hpart : IsComponentPartition (buildVertexEdges imports new_units) comps)
    (htopo : IsTopologicalOrdering (buildVertexEdges imports new_units) comps ord)
    (a b : Nat)
    (ha : a < new_units.length)
    (hedge : HasEdge (buildVertexEdges imports new_units) a b) :
    ∃ ca cb, VertexIn comps ca a ∧ VertexIn comps cb b ∧
      (ca = cb ∨ ord.indexOf cb < ord.indexOf ca) := by
  have hb : b < new_units.length :=
    buildVertexEdges_target_lt imports new_units a b hedge
  have hlen : (buildVertexEdges imports new_units).length = new_units.length := by
    unfold buildVertexEdges
    exact List.length_map _ _
  obtain ⟨ca, hca, hcau⟩ := hpart a (by omega)
  obtain ⟨cb, hcb, hcbu⟩ := hpart b (by omega)
  refine ⟨ca, cb, hca, hcb, ?_⟩
  by_cases hsame : ca = cb
  · exact Or.inl hsame
  · refine Or.inr (htopo.2.2 ca cb ?_)
    exact ⟨hsame, a, b, hca, hcb, hedge⟩

/-- The two-unit situation: unit `10` imports unit `20`. -/
def c5imports : Nat → List Nat := fun u => if u = 10 then [20] else []

def c5units : List Nat := [10, 20]

def c5comps : List (List Nat) := [[1], [0]]

def c5ord : List Nat := [0, 1]

/-- Witness for `codegen_dependency_ordering`: with units `[10, 20]` where
`10` imports `20`, singleton components `[[1], [0]]` and ordering `[0, 1]`,
the importing unit (vertex 0) is handed over after its dependency
(vertex 1). -/
theorem codegen_dependency_ordering_witness :
    ∃ ca cb, VertexIn c5comps ca 0 ∧ VertexIn c5comps cb 1 ∧
      (ca = cb ∨ c5ord.indexOf cb < c5ord.indexOf ca) := by
  refine codegen_dependency_ordering c5imports c5units c5comps c5ord
    ?_ ?_ 0 1 (by decide)
    (by unfold HasEdge buildVertexEdges c5imports c5units listPosition; decide)
  · intro v hv
    have hv2 : v < 2 := by
      simpa [buildVertexEdges, c5units] using hv
    interval_cases v
    · refine ⟨1, by decide, ?_⟩
      intro c2 hc2
      rcases c2 with _ | _ | c2
      · exact absurd hc2 (by decide)
      · rfl
      · simp [VertexIn, c5comps, List.getD] at hc2
    · refine ⟨0, by decide, ?_⟩
      intro c2 hc2
      rcases c2 with _ | _ | c2
      · rfl
      · exact absurd hc2 (by decide)
      · simp [VertexIn, c5comps, List.getD] at hc2
  · refine ⟨by decide, ?_, ?_⟩
    · intro c hc
      have hc2 : c < 2 := by simpa [c5comps] using hc
      interval_cases c
      · decide
      · decide
    · intro x y hxy
      obtain ⟨hne, a, b, hxa, hyb, hab⟩ := hxy
      have hab01 : a = 0 ∧ b = 1 := by
        rcases a with _ | _ | a
        · simp [HasEdge, buildVertexEdges, c5imports, c5units, listPosition,
            List.getD] at hab
          omega
        · simp [HasEdge, buildVertexEdges, c5imports, c5units, listPosition,
            List.getD] at hab
        · simp [HasEdge, buildVertexEdges, c5imports, c5units, listPosition,
            List.getD] at hab
      obtain ⟨rfl, rfl⟩ := hab01
      have hx : x = 1 := by
        rcases x with _ | _ | x
        · exact absurd hxa (by decide)
        · rfl
        · simp [VertexIn, c5comps, List.getD] at hxa
      have hy : y = 0 := by
        rcases y with _ | _ | y
        · rfl
        · exact absurd hyb (by decide)
        · simp [VertexIn, c5comps, List.getD] at hyb
      subst hx
      subst hy
      decide

/-!
## Claim C6: rollback of a failed incremental load
(`Compiler::load_module_from_expr_internal`, compiler.rs lines 102-131)

The unit registry lives in code_store.rs, which is not under src/; the
store is modelled from the spec as the ordered list of live unit ids with
`create_unit`/`remove_unit`.  The control flow is translated from
compiler.rs: `load_module` creates the new unit, parses, then runs
structure, typecheck, polymorphic instantiation (each instance creating a
further unit with a fresh id, compiler.rs lines 147-197), codegen and
initialisation; the outcome of each external step is an oracle parameter.
On the first failure inside `load_module_from_expr_internal` every unit
recorded in `new_units` is removed and the single error is returned — but a
parse failure (compiler.rs line 70) propagates with `?` before the rollback
handler is ever entered, so the unit created at line 68 stays in the
store.
-/

/-- Modelled from the spec: the code store's unit registry (code_store.rs,
not under src/): the ids of the live units in creation order. -/
structure CodeStore0 where
  units : List Nat
deriving DecidableEq, Repr

/-- Modelled from the spec: `CodeStore::create_unit` registers a unit under
the id handed in by the caller (always `gen.next()`). -/
def CodeStore0.create_unit (cs : CodeStore0) (id : Nat) : CodeStore0 :=
  { units := cs.units ++ [id] }

/-- Modelled from the spec: `CodeStore::remove_unit` deletes the unit and
its artifacts; the id stays allocated. -/
def CodeStore0.remove_unit (cs : CodeStore0) (id : Nat) : CodeStore0 :=
  { units := cs.units.filter (fun u => u ≠ id) }

/-- The compiler state visible to a load: the store and the `UIDGenerator`
counter (`expr.rs`; `next()` returns the counter and increments it). -/
structure CompState where
  code_store : CodeStore0
  gen : Nat
deriving DecidableEq, Repr

/-- `self.code_store.create_unit(self.gen.next(), name)` as one step. -/
def CompState.create_unit (st : CompState) : Nat × CompState :=
  (st.gen, { code_store := st.code_store.create_unit st.gen, gen := st.gen + 1 })

/-- The outcomes of the externally-implemented steps of one load: an error
for structure or typecheck, one entry per polymorphic instance the
typechecker requests (`some` = that instance fails to typecheck), and an
error for codegen or top-level initialisation. -/
structure LoadOracle where
  structure_error : Option String
  typecheck_error : Option String
  instance_plan : List (Option String)
  codegen_error : Option String
  initialise_error : Option String
deriving DecidableEq, Repr

/-- source: the instance loop of `typecheck_new_polymorphic_instances`
(compiler.rs lines 147-197): each requested instance creates a fresh unit
(pushed onto `new_units`) and then typechecks, aborting on the first
failure. -/
def runInstances : CompState → List (Option String) → List Nat →
    CompState × List Nat × Option String
  | st, [], new_units => (st, new_units, none)
  | st, o :: rest, new_units =>
    let r := st.create_unit
    let new_units := new_units ++ [r.1]
    match o with
    | some e => (r.2, new_units, some e)
    | none => runInstances r.2 rest new_units

/-- source: the nested `fn inner` of `load_module_from_expr_internal`
(compiler.rs lines 105-118): structure, typecheck, instances, codegen,
initialise, stopping at the first failing step. -/
def loadInner (st : CompState) (unit_id : Nat) (oracle : LoadOracle) :
    CompState × List Nat × Option String :=
  match oracle.structure_error with
  | some e => (st, [unit_id], some e)
  | none =>
    match oracle.typecheck_error with
    | some e => (st, [unit_id], some e)
    | none =>
      match (runInstances st oracle.instance_plan [unit_id]).2.2 with
      | some e => runInstances st oracle.instance_plan [unit_id]
      | none =>
        match oracle.codegen_error with
        | some e => ((runInstances st oracle.instance_plan [unit_id]).1,
            (runInstances st oracle.instance_plan [unit_id]).2.1, some e)
        | none =>
          match oracle.initialise_error with
          | some e => ((runInstances st oracle.instance_plan [unit_id]).1,
              (runInstances st oracle.instance_plan [unit_id]).2.1, some e)
          | none => ((runInstances st oracle.instance_plan [unit_id]).1,
              (runInstances st oracle.instance_plan [unit_id]).2.1, none)

/-- source: `load_expr_as_module` + `load_module_from_expr_internal`
(compiler.rs lines 53-62 and 102-131): create the unit, run `inner`, and on
failure remove every unit in `new_units` from the store, handing the caller
the single error. -/
def load_expr_as_module (st : CompState) (oracle : LoadOracle) :
    CompState × Except String Nat :=
  match (loadInner (st.create_unit).2 (st.create_unit).1 oracle).2.2 with
  | none => ((loadInner (st.create_unit).2 (st.create_unit).1 oracle).1,
      .ok (st.create_unit).1)
  | some e =>
    ((loadInner (st.create_unit).2 (st.create_unit).1 oracle).2.1.foldl
      (fun s uid => { s with code_store := s.code_store.remove_unit uid })
      (loadInner (st.create_unit).2 (st.create_unit).1 oracle).1, .error e)

/-- source: `Compiler::load_module` (compiler.rs lines 64-74): create the
unit (line 68), parse (line 70), then hand the unit to
`load_module_from_expr_internal`.  A parse error propagates with `?` before
the rollback handler exists, so the freshly created unit is never removed;
only after a successful parse does the rollback-protected path run. -/
def load_module (st : CompState) (parse_error : Option String)
    (oracle : LoadOracle) : CompState × Except String Nat :=
  match parse_error with
  | some e => ((st.create_unit).2, .error e)
  | none => load_expr_as_module st oracle

/-- Removing a list of ids touches only the store's unit list. -/
theorem foldl_remove_units (rem : List Nat) : ∀ (st : CompState),
    (rem.foldl
      (fun s uid => { s with code_store := s.code_store.remove_unit uid })
      st).gen = st.gen ∧
    (rem.foldl
      (fun s uid => { s with code_store := s.code_store.remove_unit uid })
      st).code_store.units =
      rem.foldl (fun l r => l.filter (fun u => u ≠ r)) st.code_store.units := by
  induction rem with
  | nil => intro st; exact ⟨rfl, rfl⟩
  | cons r rest ih =>
    intro st
    exact ih { st with code_store := st.code_store.remove_unit r }

/-- Repeated single-id removal is one filter against the removed set. -/
theorem foldl_filter_removeAll (rem : List Nat) : ∀ (l : List Nat),
    rem.foldl (fun l r => l.filter (fun u => u ≠ r)) l
      = l.filter (fun u => !rem.contains u) := by
  induction rem with
  | nil =>
    intro l
    simp
  | cons r rest ih =>
    intro l
    rw [List.foldl_cons, ih, List.filter_filter]
    apply List.filter_congr
    intro u _
    by_cases h1 : u = r
    · subst h1
      simp
    · simp [h1]

/-- `runInstances` allocates one fresh consecutive id per processed entry
and aborts exactly when some entry fails. -/
theorem runInstances_shape (plan : List (Option String)) :
    ∀ (st : CompState) (nus : List Nat),
      ∃ m, m ≤ plan.length ∧
        (runInstances st plan nus).1.gen = st.gen + m ∧
        (runInstances st plan nus).1.code_store.units
          = st.code_store.units ++ List.range' st.gen m ∧
        (runInstances st plan nus).2.1 = nus ++ List.range' st.gen m ∧
        (runInstances st plan nus).2.2.isSome
          = plan.any (fun o => o.isSome) := by
  induction plan with
  | nil =>
    intro st nus
    exact ⟨0, by simp [runInstances, List.range']⟩
  | cons o rest ih =>
    intro st nus
    cases o with
    | some e =>
      refine ⟨1, by simp, rfl, ?_, ?_, rfl⟩
      · show (st.code_store.units ++ [st.gen])
          = st.code_store.units ++ List.range' st.gen 1
        rfl
      · show nus ++ [st.gen] = nus ++ List.range' st.gen 1
        rfl
    | none =>
      obtain ⟨m, hm, hgen, hunits, hnus, hflag⟩ :=
        ih (st.create_unit).2 (nus ++ [(st.create_unit).1])
      have hred : runInstances st (none :: rest) nus
          = runInstances (st.create_unit).2 rest (nus ++ [(st.create_unit).1]) := rfl
      refine ⟨m + 1, by simp; omega, ?_, ?_, ?_, ?_⟩
      · rw [hred, hgen]
        show st.gen + 1 + m = st.gen + (m + 1)
        omega
      · rw [hred, hunits]
        show (st.code_store.units ++ [st.gen]) ++ List.range' (st.gen + 1) m
          = st.code_store.units ++ List.range' st.gen (m + 1)
        rw [List.append_assoc]
        rfl
      · rw [hred, hnus]
        show (nus ++ [st.gen]) ++ List.range' (st.gen + 1) m
          = nus ++ List.range' st.gen (m + 1)
        rw [List.append_assoc]
        rfl
      · rw [hred, hflag]
        simp

/-- The failure flag of every load: one of the five steps failed. -/
def anyStepFails (oracle : LoadOracle) : Bool :=
  oracle.structure_error.isSome || oracle.typecheck_error.isSome ||
  oracle.instance_plan.any (fun o => o.isSome) ||
  oracle.codegen_error.isSome || oracle.initialise_error.isSome

/-- `loadInner` grows the store by the consecutive fresh ids it records in
`new_units`, and flags an error exactly when a step fails. -/
theorem loadInner_spec (oracle : LoadOracle) (st : CompState) :
    ∃ m, 1 ≤ m ∧
      (loadInner (st.create_unit).2 (st.create_unit).1 oracle).1.gen
        = st.gen + m ∧
      (loadInner (st.create_unit).2 (st.create_unit).1 oracle).1.code_store.units
        = st.code_store.units ++ List.range' st.gen m ∧
      (loadInner (st.create_unit).2 (st.create_unit).1 oracle).2.1
        = List.range' st.gen m ∧
      (loadInner (st.create_unit).2 (st.create_unit).1 oracle).2.2.isSome
        = anyStepFails oracle := by
  obtain ⟨oS, oT, oP, oC, oI⟩ := oracle
  cases oS with
  | some e => exact ⟨1, le_refl 1, rfl, rfl, rfl, rfl⟩
  | none =>
  cases oT with
  | some e => exact ⟨1, le_refl 1, rfl, rfl, rfl, rfl⟩
  | none =>
  obtain ⟨m, hm, hgen, hunits, hnus, hflag⟩ :=
    runInstances_shape oP (st.create_unit).2 [(st.create_unit).1]
  have hgenx : (runInstances (st.create_unit).2 oP [(st.create_unit).1]).1.gen
      = st.gen + (m + 1) := by
    rw [hgen]
    show st.gen + 1 + m = st.gen + (m + 1)
    omega
  have hunitsx :
      (runInstances (st.create_unit).2 oP [(st.create_unit).1]).1.code_store.units
      = st.code_store.units ++ List.range' st.gen (m + 1) := by
    rw [hunits]
    show (st.code_store.units ++ [st.gen]) ++ List.range' (st.gen + 1) m
      = st.code_store.units ++ List.range' st.gen (m + 1)
    rw [List.append_assoc]
    rfl
  have hnusx : (runInstances (st.create_unit).2 oP [(st.create_unit).1]).2.1
      = List.range' st.gen (m + 1) := by
    rw [hnus]
    show [st.gen] ++ List.range' (st.gen + 1) m = List.range' st.gen (m + 1)
    rfl
  refine ⟨m + 1, by omega, ?_⟩
  cases hri : (runInstances (st.create_unit).2 oP [(st.create_unit).1]).2.2 with
  | some e =>
    have hany : oP.any (fun o => o.isSome) = true := by
      rw [← hflag, hri]
      rfl
    refine ⟨?_, ?_, ?_, ?_⟩ <;>
      simp only [loadInner, hri, hgenx, hunitsx, hnusx, anyStepFails, hany,
        Option.isSome_some, Option.isSome_none, Bool.false_or, Bool.or_false,
        Bool.true_or, Bool.or_true]
  | none =>
    have hany : oP.any (fun o => o.isSome) = false := by
      rw [← hflag, hri]
      rfl
    cases oC with
    | some e =>
      refine ⟨?_, ?_, ?_, ?_⟩ <;>
        simp only [loadInner, hri, hgenx, hunitsx, hnusx, anyStepFails, hany,
          Option.isSome_some, Option.isSome_none, Bool.false_or, Bool.or_false,
          Bool.true_or, Bool.or_true]
    | none =>
      cases oI with
      | some e =>
        refine ⟨?_, ?_, ?_, ?_⟩ <;>
          simp only [loadInner, hri, hgenx, hunitsx, hnusx, anyStepFails, hany,
            Option.isSome_some, Option.isSome_none, Bool.false_or,
            Bool.or_false, Bool.true_or, Bool.or_true]
      | none =>
        refine ⟨?_, ?_, ?_, ?_⟩ <;>
          simp only [loadInner, hri, hgenx, hunitsx, hnusx, anyStepFails, hany,
            Option.isSome_some, Option.isSome_none, Bool.false_or,
            Bool.or_false, Bool.true_or, Bool.or_true]

/-- The rollback-protected path (`load_expr_as_module`): on a failed load
the store's live units are restored exactly, the id counter only advances,
well-formedness (every live id below the counter) is preserved, no id
allocated during the failed load is live afterwards — and the caller
receives an error precisely when some step failed. -/
theorem load_expr_rollback (st : CompState) (oracle : LoadOracle)
    (hwf : ∀ u ∈ st.code_store.units, u < st.gen) :
    ((load_expr_as_module st oracle).2.isOk = false →
      (load_expr_as_module st oracle).1.code_store.units
        = st.code_store.units) ∧
    st.gen ≤ (load_expr_as_module st oracle).1.gen ∧
    (∀ u ∈ (load_expr_as_module st oracle).1.code_store.units,
      u < (load_expr_as_module st oracle).1.gen) ∧
    ((load_expr_as_module st oracle).2.isOk = false →
      ∀ id, st.gen ≤ id →
        id ∉ (load_expr_as_module st oracle).1.code_store.units) ∧
    ((load_expr_as_module st oracle).2.isOk = false ↔
      anyStepFails oracle = true) := by
  obtain ⟨m, hm1, hgen, hunits, hnus, hflag⟩ := loadInner_spec oracle st
  unfold load_expr_as_module
  cases hri : (loadInner (st.create_unit).2 (st.create_unit).1 oracle).2.2 with
  | none =>
    simp only [hri]
    have hflag2 : anyStepFails oracle = false := by
      rw [← hflag, hri]
      rfl
    refine ⟨fun h => by simp [Except.isOk, Except.toBool] at h, ?_, ?_, ?_, ?_⟩
    · rw [hgen]
      omega
    · intro u hu
      rw [hunits] at hu
      rw [hgen]
      rcases List.mem_append.mp hu with h | h
      · have := hwf u h
        omega
      · have := List.mem_range'_1.mp h
        omega
    · intro h
      simp [Except.isOk, Except.toBool] at h
    · constructor
      · intro h
        simp [Except.isOk, Except.toBool] at h
      · intro h
        rw [hflag2] at h
        cases h
  | some e =>
    simp only [hri]
    have hflag2 : anyStepFails oracle = true := by
      rw [← hflag, hri]
      rfl
    have hrem := foldl_remove_units
      (loadInner (st.create_unit).2 (st.create_unit).1 oracle).2.1
      (loadInner (st.create_unit).2 (st.create_unit).1 oracle).1
    have hrestore :
        ((loadInner (st.create_unit).2 (st.create_unit).1 oracle).2.1.foldl
          (fun s uid => { s with code_store := s.code_store.remove_unit uid })
          (loadInner (st.create_unit).2 (st.create_unit).1 oracle).1).code_store.units
        = st.code_store.units := by
      rw [hrem.2, hnus, hunits, foldl_filter_removeAll]
      rw [List.filter_append]
      have h1 : st.code_store.units.filter
          (fun u => !(List.range' st.gen m).contains u) = st.code_store.units := by
        apply List.filter_eq_self.mpr
        intro u hu
        have hlt := hwf u hu
        have hc : (List.range' st.gen m).contains u = false := by
          rw [List.contains_eq_any_beq]
          rw [List.any_eq_false]
          intro x hx hbe
          have hx2 := List.mem_range'_1.mp hx
          simp only [beq_iff_eq] at hbe
          omega
        rw [hc]
        rfl
      have h2 : (List.range' st.gen m).filter
          (fun u => !(List.range' st.gen m).contains u) = [] := by
        apply List.filter_eq_nil_iff.mpr
        intro u hu
        have hc : (List.range' st.gen m).contains u = true := by
          rw [List.contains_eq_any_beq, List.any_eq_true]
          exact ⟨u, hu, by simp⟩
        rw [hc]
        simp
      rw [h1, h2, List.append_nil]
    refine ⟨fun _ => hrestore, ?_, ?_, ?_, ?_⟩
    · rw [hrem.1, hgen]
      omega
    · intro u hu
      rw [hrestore] at hu
      rw [hrem.1, hgen]
      have := hwf u hu
      omega
    · intro _ id hid hmem
      rw [hrestore] at hmem
      have := hwf id hmem
      omega
    · constructor
      · intro _
        exact hflag2
      · intro _
        rfl

/-- A one-unit store and a load whose structure step fails. -/
def c6st : CompState := { code_store := { units := [0] }, gen := 1 }

def c6oracle : LoadOracle :=
  { structure_error := some "structure failed", typecheck_error := none,
    instance_plan := [none, none], codegen_error := none,
    initialise_error := none }

/-- C6: counterexample.  A parse failure is one of the load's failing
steps, yet it is not rolled back: on the concrete one-unit store the load
returns the parse error while the unit created for the load (id 1) is still
live in the store, so the live set does not equal its pre-load state. -/
theorem load_parse_failure_counterexample :
    (load_module c6st (some "parse failed") c6oracle).2
      = .error "parse failed" ∧
    (load_module c6st (some "parse failed") c6oracle).1.code_store.units
      = [0, 1] ∧
    c6st.code_store.units = [0] ∧ ([0, 1] : List Nat) ≠ [0] := by
  refine ⟨rfl, rfl, rfl, by decide⟩

/-- C6 (amended): a parse failure returns the error but leaves the unit
created for the load live in the store (no rollback); for every load that
gets past parsing, a failure of any later step (structure, typecheck,
polymorphic instantiation, codegen, top-level execution) restores the live
unit set exactly, the id counter only advances, every live id stays below
the counter, no id allocated during the failed load is live afterwards, and
the caller receives an error precisely when some step failed. -/
theorem load_rollback_contract :
    (∀ (st : CompState) (e : String) (oracle : LoadOracle),
      (load_module st (some e) oracle).2 = .error e ∧
      (load_module st (some e) oracle).1.code_store.units
        = st.code_store.units ++ [st.gen]) ∧
    (∀ (st : CompState) (oracle : LoadOracle),
      (∀ u ∈ st.code_store.units, u < st.gen) →
      ((load_module st none oracle).2.isOk = false →
        (load_module st none oracle).1.code_store.units
          = st.code_store.units) ∧
      st.gen ≤ (load_module st none oracle).1.gen ∧
      (∀ u ∈ (load_module st none oracle).1.code_store.units,
        u < (load_module st none oracle).1.gen) ∧
      ((load_module st none oracle).2.isOk = false →
        ∀ id, st.gen ≤ id →
          id ∉ (load_module st none oracle).1.code_store.units) ∧
      ((load_module st none oracle).2.isOk = false ↔
        anyStepFails oracle = true)) := by
  constructor
  · intro st e oracle
    exact ⟨rfl, rfl⟩
  · intro st oracle hwf
    exact load_expr_rollback st oracle hwf

/-- Witness for `load_rollback_contract`: its well-formedness hypothesis
discharged on the concrete one-unit store, with the structure step
failing. -/
theorem load_rollback_contract_witness :
    (∀ u ∈ c6st.code_store.units, u < c6st.gen) ∧
    (((load_module c6st none c6oracle).2.isOk = false →
      (load_module c6st none c6oracle).1.code_store.units
        = c6st.code_store.units) ∧
    c6st.gen ≤ (load_module c6st none c6oracle).1.gen ∧
    (∀ u ∈ (load_module c6st none c6oracle).1.code_store.units,
      u < (load_module c6st none c6oracle).1.gen) ∧
    ((load_module c6st none c6oracle).2.isOk = false →
      ∀ id, c6st.gen ≤ id →
        id ∉ (load_module c6st none c6oracle).1.code_store.units) ∧
    ((load_module c6st none c6oracle).2.isOk = false ↔
      anyStepFails c6oracle = true)) :=
  ⟨by decide, load_rollback_contract.2 c6st c6oracle (by decide)⟩

end LPP
